import Mathlib

/-!
# go-url-shortener: the storage layer

A shallow embedding of `storage/storage.go`, `storage/memory.go`, `storage/sqlite.go`
and `handler/url.go`, followed by theorems about it.

Modelling conventions.

* A Go `map[string]*URL` is an association list with pairwise distinct keys
  (`AList`); the order of its entries carries no meaning, as Go leaves map iteration
  order unspecified.  A `*URL` stored in the map is modelled by the record value that
  the pointer refers to, so `url.Hits++` becomes a replacement of the entry under its key.
* Go `int` is taken to be 64 bits wide, its size on a 64-bit platform.  A value of `int` is
  an `Int` between `MinInt` and `MaxInt`, and the arithmetic of `int` wraps around
  (`wrapInt`).
* A Go `string` is the Lean `String` with the same UTF-8 encoding.
* What the standard library and the operating system decide is an input of the model:
  `url.ParseRequestURI` is a parameter `parse`, `time.Now()` is an argument `now`,
  `crypto/rand` is a `RandSource` that is threaded through the calls, and a failure
  of the database driver is an argument `io`.  A transaction of the database is atomic:
  what it has written becomes the table when it commits, and is dropped otherwise.
* `c.Redirect` is `net/http.Redirect`, of which the header `Location`, the status and the
  body are modelled; `url.Parse` and the cleaning of a relative path are parameters of it.
* `sync.RWMutex` makes every operation atomic; the model is the sequential semantics
  of one operation at a time.
-/

namespace Storage

/-! ## storage.go -/

/-- URL represents a shortened URL record (`storage.go`, type `URL`).  `CreatedAt` is an
abstract timestamp. -/
structure URL where
  ID : String
  Original : String
  CreatedAt : Nat
  Hits : Int
deriving DecidableEq, Repr

/-- Go `error` values returned by the stores: the two package-level sentinels of
`storage.go`, and any other error, identified by its message. -/
inductive Error where
  | ErrNotFound
  | ErrInvalid
  | other (msg : String)
deriving DecidableEq, Repr

deriving instance DecidableEq for Except

/-! ## Go `int` -/

/-- The constant `math.MaxInt` for an `int` of 64 bits. -/
def MaxInt : Int := 9223372036854775807

/-- The constant `math.MinInt` for an `int` of 64 bits. -/
def MinInt : Int := -9223372036854775808

/-- The value of type `int` that an arithmetic operation yields when its mathematical
result is `x`: the result wraps around in two's complement. -/
def wrapInt (x : Int) : Int :=
  (x + 9223372036854775808) % 18446744073709551616 - 9223372036854775808

/-! ## The environment: URL parsing and randomness -/

/-- The two fields of a parsed `net/url.URL` that `Create` inspects. -/
structure ParsedURL where
  Scheme : String
  Host : String
deriving DecidableEq, Repr

/-- The type of `url.ParseRequestURI`: `none` stands for `err != nil`. -/
abbrev Parser := String → Option ParsedURL

/-- A byte. -/
abbrev Byte := Fin 256

/-- The state of `crypto/rand`.  `draws k` is what the `k`-th call of `rand.Read` delivers:
an error, or a stream of bytes from which the buffer is filled; `calls` counts the calls
made so far. -/
structure RandSource where
  draws : Nat → Except String (Nat → Byte)
  calls : Nat

/-- The call `rand.Read(bytes)` on a buffer of `n` bytes: on success the whole buffer is
filled.  Every call advances the source. -/
def RandSource.Read (r : RandSource) (n : Nat) : Except String (List Byte) × RandSource :=
  match r.draws r.calls with
  | .error e => (.error e, { r with calls := r.calls + 1 })
  | .ok f => (.ok ((List.range n).map f), { r with calls := r.calls + 1 })

/-! ## encoding/base64: `URLEncoding.WithPadding(NoPadding)` -/

/-- The URL-safe alphabet of RFC 4648, section 5 (`encodeURL` in `encoding/base64`). -/
def encodeURL : List Char :=
  "ABCDEFGHIJKLMNOPQRSTUVWXYZabcdefghijklmnopqrstuvwxyz0123456789-_".toList

/-- The table lookup `enc.encode[v & 0x3F]`. -/
def encodeChar (v : Nat) : Char :=
  encodeURL.getD (v % 64) 'A'

/-- The loop of `Encoding.Encode` without padding: three source bytes give four characters;
a remainder of one byte gives two characters and a remainder of two bytes gives three. -/
def encode : List Byte → List Char
  | a :: b :: c :: rest =>
    let val := a.val * 65536 + b.val * 256 + c.val
    encodeChar (val / 262144) :: encodeChar (val / 4096) :: encodeChar (val / 64)
      :: encodeChar val :: encode rest
  | [a, b] =>
    let val := a.val * 65536 + b.val * 256
    [encodeChar (val / 262144), encodeChar (val / 4096), encodeChar (val / 64)]
  | [a] =>
    let val := a.val * 65536
    [encodeChar (val / 262144), encodeChar (val / 4096)]
  | [] => []

/-- The call `EncodeToString(src)`. -/
def EncodeToString (src : List Byte) : String :=
  String.mk (encode src)

/-! ## memory.go -/

/-- The slice expression `s[:n]` on a string of one-byte characters: `none` is the run-time
panic for `n > len(s)`. -/
def sliceTo (s : String) (n : Nat) : Option String :=
  if n ≤ s.length then some (String.mk (s.data.take n)) else none

/-- The function `generateID` of `memory.go`: read `length` random bytes, encode them, keep
the first `length` characters.  An error of the random source is returned as it is; the
slice going out of range is reported as an error of its own. -/
def generateID (length : Nat) (rand : RandSource) : Except Error String × RandSource :=
  match rand.Read length with
  | (.error e, rand') => (.error (.other e), rand')
  | (.ok bytes, rand') =>
    match sliceTo (EncodeToString bytes) length with
    | none => (.error (.other "slice bounds out of range"), rand')
    | some id => (.ok id, rand')

/-- MemoryStore implements Store using an in-memory map (`memory.go`). -/
structure MemoryStore where
  urls : AList (fun _ : String => URL)

/-- NewMemoryStore creates a new in-memory store. -/
def NewMemoryStore : MemoryStore :=
  { urls := ∅ }

/-- The validation at the head of both `Create` methods:
`err != nil || parsedURL.Scheme == "" || parsedURL.Host == ""` means invalid. -/
def validURL (parse : Parser) (original : String) : Bool :=
  match parse original with
  | none => false
  | some parsedURL => !(decide (parsedURL.Scheme = "") || decide (parsedURL.Host = ""))

/-- The method `MemoryStore.Create`: validate, generate a six-character id, build the record
with no hits, store it under the id (the map assignment `s.urls[id] = record`), return it. -/
def MemoryStore.Create (parse : Parser) (s : MemoryStore) (rand : RandSource) (now : Nat)
    (original : String) : Except Error URL × MemoryStore × RandSource :=
  if validURL parse original then
    match generateID 6 rand with
    | (.error err, rand') => (.error err, s, rand')
    | (.ok id, rand') =>
      let record : URL := { ID := id, Original := original, CreatedAt := now, Hits := 0 }
      (.ok record, { urls := s.urls.insert id record }, rand')
  else
    (.error .ErrInvalid, s, rand)

/-- The method `MemoryStore.Get`: look the id up; if it is absent return `ErrNotFound`,
otherwise increment the hit counter of the stored record (`url.Hits++`, in the arithmetic
of `int`) and return that record. -/
def MemoryStore.Get (s : MemoryStore) (id : String) : Except Error URL × MemoryStore :=
  match s.urls.lookup id with
  | none => (.error .ErrNotFound, s)
  | some url =>
    let url' : URL := { url with Hits := wrapInt (url.Hits + 1) }
    (.ok url', { urls := s.urls.replace id url' })

/-- The method `MemoryStore.GetStats`: all stored records, in the order of the iteration. -/
def MemoryStore.GetStats (s : MemoryStore) : Except Error (List URL) × MemoryStore :=
  (.ok (s.urls.entries.map (fun e => e.2)), s)

/-- The method `MemoryStore.GetTotalCount`: `len(s.urls)`. -/
def MemoryStore.GetTotalCount (s : MemoryStore) : Except Error Int × MemoryStore :=
  (.ok (s.urls.entries.length : Int), s)

/-- The method `MemoryStore.GetTotalHits`: the loop `total += url.Hits` over the map, in
the arithmetic of `int`. -/
def MemoryStore.GetTotalHits (s : MemoryStore) : Except Error Int × MemoryStore :=
  (.ok (s.urls.entries.foldl (fun total e => wrapInt (total + e.2.Hits)) 0), s)

/-- The method `MemoryStore.Close`: a no-op that returns `nil`. -/
def MemoryStore.Close (s : MemoryStore) : Option Error × MemoryStore :=
  (none, s)

/-! ## Sequences of calls on the in-memory store -/

/-- One call of a `Store` method with its arguments (and, for `Create`, the reading of the
clock). -/
inductive Op where
  | Create (original : String) (now : Nat)
  | Get (id : String)
  | GetStats
  | GetTotalCount
  | GetTotalHits
  | Close
deriving DecidableEq, Repr

/-- What a call returns. -/
inductive Reply where
  | record (r : Except Error URL)
  | records (r : Except Error (List URL))
  | number (r : Except Error Int)
  | closed (r : Option Error)

/-- One call on the in-memory store. -/
def MemoryStore.step (parse : Parser) (s : MemoryStore) (rand : RandSource) :
    Op → Reply × MemoryStore × RandSource
  | .Create original now =>
    let out := s.Create parse rand now original
    (.record out.1, out.2.1, out.2.2)
  | .Get id => let out := s.Get id; (.record out.1, out.2, rand)
  | .GetStats => let out := s.GetStats; (.records out.1, out.2, rand)
  | .GetTotalCount => let out := s.GetTotalCount; (.number out.1, out.2, rand)
  | .GetTotalHits => let out := s.GetTotalHits; (.number out.1, out.2, rand)
  | .Close => let out := s.Close; (.closed out.1, out.2, rand)

/-- A sequence of calls, one after the other; the replies are dropped. -/
def MemoryStore.run (parse : Parser) (s : MemoryStore) (rand : RandSource) :
    List Op → MemoryStore × RandSource
  | [] => (s, rand)
  | op :: ops =>
    let out := s.step parse rand op
    MemoryStore.run parse out.2.1 out.2.2 ops

/-- Whether a call is a `Create` that succeeds with an id under which a record is already
stored. -/
def MemoryStore.collides (parse : Parser) (s : MemoryStore) (rand : RandSource) : Op → Bool
  | .Create original now =>
    match (s.Create parse rand now original).1 with
    | .ok r => decide (r.ID ∈ s.urls.keys)
    | .error _ => false
  | _ => false

/-- No call of the sequence is a `Create` that succeeds with an id already stored at the
time of the call. -/
def MemoryStore.collisionFree (parse : Parser) (s : MemoryStore) (rand : RandSource) :
    List Op → Bool
  | [] => true
  | op :: ops =>
    let out := s.step parse rand op
    !(s.collides parse rand op) && MemoryStore.collisionFree parse out.2.1 out.2.2 ops

/-- Whether a call is a `Create` that returns a record. -/
def MemoryStore.createOk (parse : Parser) (s : MemoryStore) (rand : RandSource) : Op → Bool
  | .Create original now =>
    match (s.Create parse rand now original).1 with
    | .ok _ => true
    | .error _ => false
  | _ => false

/-- Whether a call is a `Get` that returns a record. -/
def MemoryStore.getOk (s : MemoryStore) : Op → Bool
  | .Get id =>
    match (s.Get id).1 with
    | .ok _ => true
    | .error _ => false
  | _ => false

/-- The number of `Create` calls of the sequence that return a record. -/
def MemoryStore.createsOk (parse : Parser) (s : MemoryStore) (rand : RandSource) :
    List Op → Nat
  | [] => 0
  | op :: ops =>
    let out := s.step parse rand op
    (if s.createOk parse rand op then 1 else 0) + MemoryStore.createsOk parse out.2.1 out.2.2 ops

/-- The number of `Get` calls of the sequence that return a record. -/
def MemoryStore.getsOk (parse : Parser) (s : MemoryStore) (rand : RandSource) :
    List Op → Nat
  | [] => 0
  | op :: ops =>
    let out := s.step parse rand op
    (if s.getOk op then 1 else 0) + MemoryStore.getsOk parse out.2.1 out.2.2 ops

/-- The sum of all hit counters, as a number. -/
def MemoryStore.sumHits (s : MemoryStore) : Int :=
  (s.urls.entries.map (fun e => e.2.Hits)).sum

/-- No hit counter is negative, and `n` more hits do not take the sum of the counters
beyond `MaxInt`: no counter and no total wraps around during `n` calls. -/
def MemoryStore.room (s : MemoryStore) (n : Nat) : Prop :=
  (∀ e ∈ s.urls.entries, 0 ≤ e.2.Hits) ∧ s.sumHits + n ≤ MaxInt

/-! ## sqlite.go -/

/-- A row of the table `urls` without its primary key `id`:
`original TEXT NOT NULL, created_at TIMESTAMP NOT NULL, hits INTEGER NOT NULL DEFAULT 0`.
The value of `hits` is an INTEGER of 64 bits when it lies between `MinInt` and `MaxInt`; a
value beyond stands for the REAL of that value, which is what SQLite stores when
`hits + 1` overflows the 64-bit integers. -/
structure Row where
  original : String
  created_at : Nat
  hits : Int
deriving DecidableEq, Repr

/-- SQLiteStore implements Store using SQLite (`sqlite.go`): the table `urls`, keyed by its
primary key. -/
structure SQLiteStore where
  rows : AList (fun _ : String => Row)

/-- The statement `INSERT INTO urls (id, original, created_at, hits) VALUES (?, ?, ?, 0)`:
it fails when the driver fails (`io`) or when the primary key is taken. -/
def SQLiteStore.execInsert (s : SQLiteStore) (io : Option String) (id original : String)
    (now : Nat) : Except Error SQLiteStore :=
  match io with
  | some e => .error (.other e)
  | none =>
    if id ∈ s.rows.keys then .error (.other "UNIQUE constraint failed: urls.id")
    else .ok { rows := s.rows.insert id { original := original, created_at := now, hits := 0 } }

/-- The method `SQLiteStore.Create`: validate, generate a six-character id, insert the row,
return the record. -/
def SQLiteStore.Create (parse : Parser) (s : SQLiteStore) (rand : RandSource) (now : Nat)
    (io : Option String) (original : String) : Except Error URL × SQLiteStore × RandSource :=
  if validURL parse original then
    match generateID 6 rand with
    | (.error err, rand') => (.error err, s, rand')
    | (.ok id, rand') =>
      match s.execInsert io id original now with
      | .error err => (.error err, s, rand')
      | .ok s' => (.ok { ID := id, Original := original, CreatedAt := now, Hits := 0 }, s', rand')
  else
    (.error .ErrInvalid, s, rand)

/-- Whether `Scan` can store the column `hits` into the `int` field `Hits`: an INTEGER is
stored as it is, a REAL beyond the 64-bit integers is a conversion error. -/
def Row.scannable (row : Row) : Bool :=
  decide (MinInt ≤ row.hits ∧ row.hits ≤ MaxInt)

/-- The record that `Scan` builds from a row and its primary key. -/
def Row.scan (id : String) (row : Row) : URL :=
  { ID := id, Original := row.original, CreatedAt := row.created_at, Hits := row.hits }

/-- The aggregate `SUM` over INTEGER values, from the accumulator `acc` on: SQLite adds in
64-bit integers and raises `integer overflow` as soon as a sum leaves them (`none`). -/
def sqlSum : List Int → Int → Option Int
  | [], acc => some acc
  | x :: xs, acc =>
    if MinInt ≤ acc + x ∧ acc + x ≤ MaxInt then sqlSum xs (acc + x) else none

/-- What the database driver decides during one `Get`: for each of `db.Begin`, the `SELECT`,
the `UPDATE` and `tx.Commit`, whether it fails, and with which message. -/
structure TxFaults where
  beginErr : Option String
  queryErr : Option String
  updateErr : Option String
  commitErr : Option String
deriving DecidableEq, Repr

/-- The driver fails nowhere. -/
def noFaults : TxFaults :=
  { beginErr := none, queryErr := none, updateErr := none, commitErr := none }

/-- The method `SQLiteStore.Get`: begin a transaction, select the row of the id
(`sql.ErrNoRows` becomes `ErrNotFound`, a row that does not scan is an error), update
`hits = hits + 1` in the arithmetic of SQLite, commit, and return the scanned record with
`Hits` incremented in the arithmetic of `int` (`url.Hits++`).  Every return before the
commit, and a commit that fails, leaves the table as it was (the deferred
`tx.Rollback()`). -/
def SQLiteStore.Get (s : SQLiteStore) (io : TxFaults) (id : String) :
    Except Error URL × SQLiteStore :=
  match io.beginErr with
  | some e => (.error (.other e), s)
  | none =>
    match io.queryErr with
    | some e => (.error (.other e), s)
    | none =>
      match s.rows.lookup id with
      | none => (.error .ErrNotFound, s)
      | some row =>
        if row.scannable then
          let url : URL := Row.scan id row
          match io.updateErr with
          | some e => (.error (.other e), s)
          | none =>
            let tx : SQLiteStore :=
              { rows := s.rows.replace id { row with hits := row.hits + 1 } }
            match io.commitErr with
            | some e => (.error (.other e), s)
            | none => (.ok { url with Hits := wrapInt (url.Hits + 1) }, tx)
        else
          (.error (.other "converting driver.Value type float64 to a int"), s)

/-- The method `SQLiteStore.GetStats`: the query over all rows, in the order in which the
engine returns them; a row that does not scan is an error. -/
def SQLiteStore.GetStats (s : SQLiteStore) (io : Option String) :
    Except Error (List URL) × SQLiteStore :=
  match io with
  | some e => (.error (.other e), s)
  | none =>
    if s.rows.entries.all (fun e => e.2.scannable) then
      (.ok (s.rows.entries.map (fun e => Row.scan e.1 e.2)), s)
    else
      (.error (.other "converting driver.Value type float64 to a int"), s)

/-- The method `SQLiteStore.GetTotalCount`: `SELECT COUNT(*) FROM urls`. -/
def SQLiteStore.GetTotalCount (s : SQLiteStore) (io : Option String) :
    Except Error Int × SQLiteStore :=
  match io with
  | some e => (.error (.other e), s)
  | none => (.ok (s.rows.entries.length : Int), s)

/-- The method `SQLiteStore.GetTotalHits`: `SELECT COALESCE(SUM(hits), 0) FROM urls` over a
table of INTEGER values.  With a REAL among the rows the sum is a floating-point number,
for which the definition reports the conversion error of `Scan` without computing it. -/
def SQLiteStore.GetTotalHits (s : SQLiteStore) (io : Option String) :
    Except Error Int × SQLiteStore :=
  match io with
  | some e => (.error (.other e), s)
  | none =>
    if s.rows.entries.all (fun e => e.2.scannable) then
      match sqlSum (s.rows.entries.map (fun e => e.2.hits)) 0 with
      | some total => (.ok total, s)
      | none => (.error (.other "integer overflow"), s)
    else
      (.error (.other "converting driver.Value type float64 to a int"), s)

/-- The method `SQLiteStore.Close`: `s.db.Close()`, with the verdict of the driver. -/
def SQLiteStore.Close (s : SQLiteStore) (io : Option String) : Option Error × SQLiteStore :=
  match io with
  | some e => (some (.other e), s)
  | none => (none, s)

/-- One call on the durable store while the driver fails nowhere. -/
def SQLiteStore.step (parse : Parser) (s : SQLiteStore) (rand : RandSource) :
    Op → Reply × SQLiteStore × RandSource
  | .Create original now =>
    let out := s.Create parse rand now none original
    (.record out.1, out.2.1, out.2.2)
  | .Get id => let out := s.Get noFaults id; (.record out.1, out.2, rand)
  | .GetStats => let out := s.GetStats none; (.records out.1, out.2, rand)
  | .GetTotalCount => let out := s.GetTotalCount none; (.number out.1, out.2, rand)
  | .GetTotalHits => let out := s.GetTotalHits none; (.number out.1, out.2, rand)
  | .Close => let out := s.Close none; (.closed out.1, out.2, rand)

/-! ## The two backends side by side -/

/-- The replies of a sequence of calls on the in-memory store. -/
def MemoryStore.trace (parse : Parser) (s : MemoryStore) (rand : RandSource) :
    List Op → List Reply
  | [] => []
  | op :: ops =>
    let out := s.step parse rand op
    out.1 :: MemoryStore.trace parse out.2.1 out.2.2 ops

/-- The replies of a sequence of calls on the durable store. -/
def SQLiteStore.trace (parse : Parser) (s : SQLiteStore) (rand : RandSource) :
    List Op → List Reply
  | [] => []
  | op :: ops =>
    let out := s.step parse rand op
    out.1 :: SQLiteStore.trace parse out.2.1 out.2.2 ops

/-- What is compared of a record: `Original` and `Hits`. -/
def URL.observed (u : URL) : String × Int :=
  (u.Original, u.Hits)

/-- Two replies are the same observation: both fail with the same error, or both succeed
with records that agree on `Original` and `Hits` (lists of records up to their order), or
with the same number. -/
def Reply.same : Reply → Reply → Prop
  | .record (.ok a), .record (.ok b) => a.observed = b.observed
  | .record (.error e), .record (.error e') => e = e'
  | .records (.ok l), .records (.ok l') => (l.map URL.observed).Perm (l'.map URL.observed)
  | .records (.error e), .records (.error e') => e = e'
  | .number a, .number b => a = b
  | .closed a, .closed b => a = b
  | _, _ => False

/-- Whether a reply is a success. -/
def Reply.isOk : Reply → Bool
  | .record (.ok _) => true
  | .records (.ok _) => true
  | .number (.ok _) => true
  | .closed none => true
  | _ => false

/-- A fresh durable store: the table exists and is empty. -/
def NewSQLiteStore : SQLiteStore :=
  { rows := ∅ }

/-- Every record of the in-memory store is stored under its own `ID`. -/
def MemoryStore.keyed (s : MemoryStore) : Bool :=
  s.urls.entries.all (fun e => decide (e.2.ID = e.1))

/-- The row that holds a record. -/
def URL.row (u : URL) : Row :=
  { original := u.Original, created_at := u.CreatedAt, hits := u.Hits }

/-- The table of the durable store holds the records of the in-memory store, row for record
and under the same keys, and each record is stored under its own `ID`. -/
def related (m : MemoryStore) (s : SQLiteStore) : Prop :=
  s.rows.entries = m.urls.entries.map (fun e => ⟨e.1, e.2.row⟩) ∧ m.keyed = true

/-! ## handler/url.go -/

/-- The interface `storage.Store`, over the state `σ` of an implementation. -/
structure Store (σ : Type) where
  Create : σ → String → Except Error URL × σ
  Get : σ → String → Except Error URL × σ
  GetStats : σ → Except Error (List URL) × σ
  GetTotalCount : σ → Except Error Int × σ
  GetTotalHits : σ → Except Error Int × σ
  Close : σ → Option Error × σ

/-- The Prometheus counters of `URLHandler`; `redirectCounter` is labelled by `url_id`. -/
structure Metrics where
  redirectCounter : String → Nat
  shortenCounter : Nat
  errorCounter : Nat

/-- The bodies that the handlers write.  The JSON documents: `gin.H` with the key `error`,
a record, `gin.H` with the key `urls`, `gin.H` with the keys `total_urls` and `total_hits`.
The bodies of a redirect: the HTML text that `net/http.Redirect` writes, or nothing. -/
inductive Body where
  | error (msg : String)
  | url (u : URL)
  | urls (l : List URL)
  | totals (total_urls total_hits : Int)
  | html (text : String)
  | empty
deriving DecidableEq, Repr

/-- What a handler answers: the status code, the header `Location`, and the body. -/
structure Response where
  status : Nat
  location : Option String
  body : Body
deriving DecidableEq, Repr

/-- The constant `http.StatusOK`. -/
def StatusOK : Nat := 200

/-- The constant `http.StatusFound`. -/
def StatusFound : Nat := 302

/-- The constant `http.StatusBadRequest`. -/
def StatusBadRequest : Nat := 400

/-- The constant `http.StatusNotFound`. -/
def StatusNotFound : Nat := 404

/-- The constant `http.StatusInternalServerError`. -/
def StatusInternalServerError : Nat := 500

/-- The call `c.JSON(code, body)`. -/
def JSON (code : Nat) (body : Body) : Response :=
  { status := code, location := none, body := body }

/-- The method `URLHandler.Shorten`.  `bind` is the outcome of `c.ShouldBindJSON(&req)`:
`none` when it fails (the body is no JSON or has no `url`), `some url` with `req.URL`
otherwise. -/
def URLHandler.Shorten {σ : Type} (store : Store σ) (m : Metrics) (s : σ)
    (bind : Option String) : Response × Metrics × σ :=
  let m1 : Metrics := { m with shortenCounter := m.shortenCounter + 1 }
  match bind with
  | none =>
    (JSON StatusBadRequest (.error "Invalid request"),
     { m1 with errorCounter := m1.errorCounter + 1 }, s)
  | some reqURL =>
    match store.Create s reqURL with
    | (.error err, s') =>
      let m2 : Metrics := { m1 with errorCounter := m1.errorCounter + 1 }
      if err = .ErrInvalid then
        (JSON StatusBadRequest (.error "Invalid URL"), m2, s')
      else
        (JSON StatusInternalServerError (.error "Failed to create shortened URL"), m2, s')
    | (.ok url, s') => (JSON StatusOK (.url url), m1, s')

/-! ### `c.Redirect`: `net/http.Redirect` -/

/-- What `c.Redirect` reads of the request and of the response under construction: the
method and `r.URL.Path` of the request, and whether the header of the response has a
`Content-Type` already. -/
structure Context where
  Method : String
  Path : String
  hadContentType : Bool
deriving DecidableEq, Repr

/-- What `net/http.Redirect` takes from the packages `net/url` and `path`.  `Parse` is
`url.Parse`.  `resolve oldpath url` is what a relative `url` becomes against the path of the
request: joined to the directory of `oldpath` unless it starts with a slash, then cleaned
by `path.Clean` with its trailing slash and its query kept. -/
structure URLLib where
  Parse : Parser
  resolve : String → String → String

/-- The digits of `strconv.AppendInt` in base 16. -/
def hexDigit (n : Nat) : Char :=
  "0123456789abcdef".toList.getD n '0'

/-- One character under `hexEscapeNonASCII`: an ASCII character is kept, and every byte of
the UTF-8 encoding of another character becomes `%` and its two hexadecimal digits. -/
def hexEscapeChar (c : Char) : List Char :=
  if c.val < 128 then [c]
  else (String.utf8EncodeChar c).flatMap (fun b =>
    ['%', hexDigit (b.toNat / 16), hexDigit (b.toNat % 16)])

/-- The function `hexEscapeNonASCII` of `net/http`, on a string given by its characters. -/
def hexEscapeNonASCII (s : String) : String :=
  String.mk (s.data.flatMap hexEscapeChar)

/-- The function `htmlEscape` of `net/http`: the five characters `&`, `<`, `>`, the double
quote and the apostrophe are replaced by entities. -/
def htmlEscape (s : String) : String :=
  String.mk (s.data.flatMap (fun c =>
    if c = '&' then "&amp;".toList
    else if c = '<' then "&lt;".toList
    else if c = '>' then "&gt;".toList
    else if c = Char.ofNat 34 then "&#34;".toList
    else if c = Char.ofNat 39 then "&#39;".toList
    else [c]))

/-- The function `http.StatusText`, on the status codes that the handlers use. -/
def StatusText (code : Nat) : String :=
  if code = 200 then "OK"
  else if code = 302 then "Found"
  else if code = 400 then "Bad Request"
  else if code = 404 then "Not Found"
  else if code = 500 then "Internal Server Error"
  else ""

/-- The url that `net/http.Redirect` redirects to: a url that parses without scheme and
without host is made absolute against the path of the request, any other url is kept. -/
def redirectTarget (lib : URLLib) (c : Context) (url : String) : String :=
  match lib.Parse url with
  | some u =>
    if u.Scheme = "" ∧ u.Host = "" then
      lib.resolve (if c.Path = "" then "/" else c.Path) url
    else url
  | none => url

/-- The function `net/http.Redirect`, which `c.Redirect(code, location)` calls: the header
`Location` is the target with its non-ASCII bytes escaped, the status is `code`, and a
request with method `GET` gets a short HTML body unless a `Content-Type` was set before. -/
def httpRedirect (lib : URLLib) (c : Context) (url : String) (code : Nat) : Response :=
  let target := redirectTarget lib c url
  { status := code
    location := some (hexEscapeNonASCII target)
    body :=
      if !c.hadContentType && decide (c.Method = "GET") then
        .html ("<a href=" ++ String.singleton (Char.ofNat 34) ++ htmlEscape target ++
          String.singleton (Char.ofNat 34) ++ ">" ++ StatusText code ++ "</a>.\n" ++ "\n")
      else .empty }

/-- The method `URLHandler.Redirect`; `id` is `c.Param("id")`. -/
def URLHandler.Redirect {σ : Type} (lib : URLLib) (c : Context) (store : Store σ)
    (m : Metrics) (s : σ) (id : String) : Response × Metrics × σ :=
  if id = "" then
    (JSON StatusBadRequest (.error "URL ID is required"),
     { m with errorCounter := m.errorCounter + 1 }, s)
  else
    match store.Get s id with
    | (.error err, s') =>
      let m1 : Metrics := { m with errorCounter := m.errorCounter + 1 }
      if err = .ErrNotFound then
        (JSON StatusNotFound (.error "URL not found"), m1, s')
      else
        (JSON StatusInternalServerError (.error "Failed to get URL"), m1, s')
    | (.ok url, s') =>
      (httpRedirect lib c url.Original StatusFound,
       { m with redirectCounter :=
          fun l => if l = id then m.redirectCounter l + 1 else m.redirectCounter l },
       s')

/-- The method `URLHandler.GetStats`. -/
def URLHandler.GetStats {σ : Type} (store : Store σ) (m : Metrics) (s : σ) :
    Response × Metrics × σ :=
  match store.GetStats s with
  | (.error _, s') =>
    (JSON StatusInternalServerError (.error "Failed to get stats"),
     { m with errorCounter := m.errorCounter + 1 }, s')
  | (.ok urls, s') => (JSON StatusOK (.urls urls), m, s')

/-- The method `URLHandler.GetMetrics`. -/
def URLHandler.GetMetrics {σ : Type} (store : Store σ) (m : Metrics) (s : σ) :
    Response × Metrics × σ :=
  match store.GetTotalCount s with
  | (.error _, s') =>
    (JSON StatusInternalServerError (.error "Failed to get total count"),
     { m with errorCounter := m.errorCounter + 1 }, s')
  | (.ok totalCount, s') =>
    match store.GetTotalHits s' with
    | (.error _, s'') =>
      (JSON StatusInternalServerError (.error "Failed to get total hits"),
       { m with errorCounter := m.errorCounter + 1 }, s'')
    | (.ok totalHits, s'') => (JSON StatusOK (.totals totalCount totalHits), m, s'')

/-- The store `mockErrorStore` of `error_test.go`, which has no state. -/
def mockErrorStore : Store Unit :=
  { Create := fun s _ => (.error .ErrInvalid, s)
    Get := fun s _ => (.error .ErrNotFound, s)
    GetStats := fun s => (.error (.other "database error"), s)
    GetTotalCount := fun s => (.error (.other "database error"), s)
    GetTotalHits := fun s => (.error (.other "database error"), s)
    Close := fun s => (none, s) }

/-- The in-memory store behind the interface, as `setupTestEnvironment` of `url_test.go`
builds it; the state carries the random source, and the clock reads `now`. -/
def memoryBackend (parse : Parser) (now : Nat) : Store (MemoryStore × RandSource) :=
  { Create := fun s original =>
      let out := s.1.Create parse s.2 now original
      (out.1, out.2.1, out.2.2)
    Get := fun s id => let out := s.1.Get id; (out.1, out.2, s.2)
    GetStats := fun s => let out := s.1.GetStats; (out.1, out.2, s.2)
    GetTotalCount := fun s => let out := s.1.GetTotalCount; (out.1, out.2, s.2)
    GetTotalHits := fun s => let out := s.1.GetTotalHits; (out.1, out.2, s.2)
    Close := fun s => let out := s.1.Close; (out.1, out.2, s.2) }

/-- The values of `url.Parse` on the urls of the examples, which have the scheme `https` and
the host `example.com`; no example is a relative url, so that `resolve` is not called. -/
def testLib : URLLib :=
  { Parse := fun u =>
      if u = "https://example.com/test" then some { Scheme := "https", Host := "example.com" }
      else if u = "https://example.com/é" then some { Scheme := "https", Host := "example.com" }
      else none
    resolve := fun _ url => url }

/-- A request `GET /AAAAAA` for which no `Content-Type` has been set. -/
def getContext : Context :=
  { Method := "GET", Path := "/AAAAAA", hadContentType := false }

/-- Counters that are all zero. -/
def zeroMetrics : Metrics :=
  { redirectCounter := fun _ => 0, shortenCounter := 0, errorCounter := 0 }

/-! ## The bits that an identifier depends on -/

/-- The first 36 bits of the bytes that `generateID 6` reads, as a number: the first four
bytes and the high four bits of the fifth byte. -/
def first36 (f : Nat → Byte) : Nat :=
  ((((f 0).val * 256 + (f 1).val) * 256 + (f 2).val) * 256 + (f 3).val) * 16 + (f 4).val / 16

/-- A stream of bytes that is zero in its first 36 bits and has every later bit of the
fifth and of the sixth byte set. -/
def lowBits : Nat → Byte := fun k =>
  if k = 4 then 15 else if k = 5 then 255 else 0

/-! ## Concrete inputs -/

/-- The values of `url.ParseRequestURI` on the inputs of `storage_test.go`: the two absolute
URLs parse, `"not-a-url"` and the empty string are errors.  It instantiates the parameter
`parse` in examples; inputs outside the table are treated as errors. -/
def testParse : Parser := fun u =>
  if u = "https://example.com/test" then some { Scheme := "https", Host := "example.com" }
  else if u = "https://example.com/test-get" then some { Scheme := "https", Host := "example.com" }
  else if u = "/relative/path" then some { Scheme := "", Host := "" }
  else none

/-- The record that `Create` returns for the URL of the test when the six random bytes are
all zero. -/
def testRecord : URL :=
  { ID := "AAAAAA", Original := "https://example.com/test", CreatedAt := 7, Hits := 0 }

/-- The store that holds `testRecord` and nothing else. -/
def testStore : MemoryStore :=
  { urls := NewMemoryStore.urls.insert "AAAAAA" testRecord }

/-- A random source whose every read succeeds and delivers zero bytes only. -/
def zeroRand : RandSource :=
  { draws := fun _ => .ok (fun _ => 0), calls := 0 }

/-- A scenario in which two `Create` calls draw the same six random bytes: the first call,
on a fresh store. -/
def firstCreate : Except Error URL × MemoryStore × RandSource :=
  NewMemoryStore.Create testParse zeroRand 7 "https://example.com/test"

/-- The scenario, second call: `Get` of the id that the first call returned. -/
def firstGet : Except Error URL × MemoryStore :=
  firstCreate.2.1.Get "AAAAAA"

/-- The scenario, third call: `Create` of another URL, with the random source as the first
call left it. -/
def secondCreate : Except Error URL × MemoryStore × RandSource :=
  firstGet.2.Create testParse firstCreate.2.2 8 "https://example.com/test-get"

/-- The scenario, fourth call: `Get` of the same id again. -/
def secondGet : Except Error URL × MemoryStore :=
  secondCreate.2.1.Get "AAAAAA"

/-- A store with two records: the record of the test under `AAAAAA`, and a record with five
hits under `BBBBBB`. -/
def twoStore : MemoryStore :=
  { urls := testStore.urls.insert "BBBBBB"
      { ID := "BBBBBB", Original := "https://example.com/test-get", CreatedAt := 8, Hits := 5 } }

/-- A store whose record under `AAAAAA` has the largest number of hits that an `int`
holds. -/
def maxStore : MemoryStore :=
  { urls := NewMemoryStore.urls.insert "AAAAAA"
      { ID := "AAAAAA", Original := "https://example.com/test", CreatedAt := 7,
        Hits := 9223372036854775807 } }

/-- A store whose record under `AAAAAA` has an `Original` with a character that is not
ASCII, `https://example.com/é`, an absolute URL with scheme and host. -/
def accentStore : MemoryStore :=
  { urls := NewMemoryStore.urls.insert "AAAAAA"
      { ID := "AAAAAA", Original := "https://example.com/é", CreatedAt := 7, Hits := 0 } }

/-- A durable store whose table holds two rows: three hits under `AAAAAA`, five hits under
`BBBBBB`. -/
def twoTable : SQLiteStore :=
  { rows := (NewSQLiteStore.rows.insert "AAAAAA"
      { original := "https://example.com/test", created_at := 7, hits := 3 }).insert "BBBBBB"
      { original := "https://example.com/test-get", created_at := 8, hits := 5 } }

/-- A durable store whose row under `AAAAAA` has the largest number of hits that a 64-bit
INTEGER holds. -/
def maxTable : SQLiteStore :=
  { rows := NewSQLiteStore.rows.insert "AAAAAA"
      { original := "https://example.com/test", created_at := 7,
        hits := 9223372036854775807 } }

/-- A durable store whose table holds one row, under the id `AAAAAA`, with three hits. -/
def testTable : SQLiteStore :=
  { rows := NewSQLiteStore.rows.insert "AAAAAA"
      { original := "https://example.com/test", created_at := 7, hits := 3 } }

/-! ## Lemmas on the map -/

theorem kreplace_dlookup_self (a : String) (b : URL) :
    ∀ l : List (Sigma (fun _ : String => URL)), a ∈ l.keys →
      List.dlookup a (List.kreplace a b l) = some b
  | [], h => by simp at h
  | ⟨a', b'⟩ :: l, h => by
    by_cases e : a = a'
    · subst e
      simp [List.kreplace, List.lookmap_cons_some]
    · have hl : a ∈ l.keys := by simpa [e] using h
      have ih := kreplace_dlookup_self a b l hl
      have hne : a ≠ (Sigma.mk a' b' : Sigma (fun _ : String => URL)).1 := e
      simp only [List.kreplace] at ih ⊢
      rw [List.lookmap_cons_none _ _ (by simp [e])]
      rw [List.dlookup_cons_ne _ _ hne]
      exact ih

theorem kreplace_dlookup_ne (a a' : String) (b : URL) (h : a' ≠ a) :
    ∀ l : List (Sigma (fun _ : String => URL)),
      List.dlookup a' (List.kreplace a b l) = List.dlookup a' l
  | [] => by simp [List.kreplace]
  | ⟨k, v⟩ :: l => by
    by_cases e : a = k
    · subst e
      have hne : a' ≠ (Sigma.mk a v : Sigma (fun _ : String => URL)).1 := h
      have hne2 : a' ≠ (Sigma.mk a b : Sigma (fun _ : String => URL)).1 := h
      have hs : List.kreplace a b (⟨a, v⟩ :: l) = ⟨a, b⟩ :: l :=
        List.lookmap_cons_some _ _ (by simp)
      rw [hs, List.dlookup_cons_ne _ _ hne, List.dlookup_cons_ne _ _ hne2]
    · have ih := kreplace_dlookup_ne a a' b h l
      simp only [List.kreplace] at ih ⊢
      rw [List.lookmap_cons_none _ _ (by simp [e])]
      by_cases e' : a' = k
      · subst e'
        simp
      · have hne : a' ≠ (Sigma.mk k v : Sigma (fun _ : String => URL)).1 := e'
        rw [List.dlookup_cons_ne _ _ hne, List.dlookup_cons_ne _ _ hne]
        exact ih

theorem lookup_replace_self (m : AList (fun _ : String => URL)) (a : String) (b : URL)
    (h : a ∈ m) : (m.replace a b).lookup a = some b :=
  kreplace_dlookup_self a b m.entries (AList.mem_keys.mp h)

theorem lookup_replace_ne (m : AList (fun _ : String => URL)) (a a' : String) (b : URL)
    (h : a' ≠ a) : (m.replace a b).lookup a' = m.lookup a' :=
  kreplace_dlookup_ne a a' b h m.entries

theorem mem_of_lookup_eq_some {m : AList (fun _ : String => URL)} {a : String} {b : URL}
    (h : m.lookup a = some b) : a ∈ m := by
  rw [← AList.lookup_isSome, h]
  rfl

/-! ## Lemmas on validation and identifier generation -/

theorem validURL_eq_true_iff (parse : Parser) (u : String) :
    validURL parse u = true ↔ ∃ p, parse u = some p ∧ p.Scheme ≠ "" ∧ p.Host ≠ "" := by
  unfold validURL
  cases hp : parse u with
  | none => simp
  | some p => simp

theorem length_encode_six (a b c d e f : Byte) : (encode [a, b, c, d, e, f]).length = 8 := by
  simp [encode]

theorem generateID_six_ok (rand : RandSource) (f : Nat → Byte)
    (h : rand.draws rand.calls = .ok f) :
    ∃ id, generateID 6 rand = (.ok id, { rand with calls := rand.calls + 1 }) ∧ id.length = 6 := by
  have hr : (List.range 6).map f = [f 0, f 1, f 2, f 3, f 4, f 5] := rfl
  refine ⟨String.mk ((encode [f 0, f 1, f 2, f 3, f 4, f 5]).take 6), ?_, ?_⟩
  · simp [generateID, RandSource.Read, h, hr, sliceTo, EncodeToString, String.length, encode]
  · simp [String.length, encode]

theorem generateID_error_other (n : Nat) (rand : RandSource) (e : Error)
    (h : (generateID n rand).1 = .error e) : ∃ msg, e = .other msg := by
  unfold generateID at h
  split at h
  · simp at h
    exact ⟨_, h.symm⟩
  · split at h
    · simp at h
      exact ⟨_, h.symm⟩
    · simp at h

/-! ## Lemmas on the arithmetic of `int` -/

theorem wrapInt_one : wrapInt 1 = 1 := by decide

theorem wrapInt_of_range (x : Int) (h1 : MinInt ≤ x) (h2 : x ≤ MaxInt) : wrapInt x = x := by
  unfold wrapInt
  unfold MinInt at h1
  unfold MaxInt at h2
  omega

theorem sum_hits_nonneg :
    ∀ l : List (Sigma (fun _ : String => URL)), (∀ e ∈ l, 0 ≤ e.2.Hits) →
      0 ≤ (l.map (fun e => e.2.Hits)).sum
  | [], _ => by simp
  | x :: l, h => by
    have h1 := h x (List.mem_cons_self _ _)
    have h2 := sum_hits_nonneg l (fun e he => h e (List.mem_cons_of_mem _ he))
    simp only [List.map_cons, List.sum_cons]
    omega

theorem hits_le_sum :
    ∀ l : List (Sigma (fun _ : String => URL)), (∀ e ∈ l, 0 ≤ e.2.Hits) →
      ∀ e ∈ l, e.2.Hits ≤ (l.map (fun e => e.2.Hits)).sum
  | [], _, e, he => by simp at he
  | x :: l, h, e, he => by
    have h1 := h x (List.mem_cons_self _ _)
    have h2 := sum_hits_nonneg l (fun e he => h e (List.mem_cons_of_mem _ he))
    simp only [List.map_cons, List.sum_cons]
    rcases List.mem_cons.mp he with rfl | hm
    · omega
    · have h3 := hits_le_sum l (fun e he => h e (List.mem_cons_of_mem _ he)) e hm
      omega

/-- The loop of `GetTotalHits` yields the sum of the counters when no counter is negative
and the sum does not exceed `MaxInt`. -/
theorem foldl_wrap_hits :
    ∀ (l : List (Sigma (fun _ : String => URL))) (a : Int), (∀ e ∈ l, 0 ≤ e.2.Hits) →
      0 ≤ a → a + (l.map (fun e => e.2.Hits)).sum ≤ MaxInt →
      l.foldl (fun total e => wrapInt (total + e.2.Hits)) a =
        a + (l.map (fun e => e.2.Hits)).sum
  | [], a, _, _, _ => by simp
  | x :: l, a, h, ha, hs => by
    have h1 := h x (List.mem_cons_self _ _)
    have h2 := sum_hits_nonneg l (fun e he => h e (List.mem_cons_of_mem _ he))
    simp only [List.map_cons, List.sum_cons] at hs
    have hw : wrapInt (a + x.2.Hits) = a + x.2.Hits :=
      wrapInt_of_range _ (by unfold MinInt; omega) (by omega)
    simp only [List.foldl_cons, List.map_cons, List.sum_cons, hw]
    rw [foldl_wrap_hits l (a + x.2.Hits) (fun e he => h e (List.mem_cons_of_mem _ he))
      (by omega) (by omega)]
    omega

theorem room_getTotalHits (s : MemoryStore) (h : s.room 0) :
    s.GetTotalHits.1 = .ok s.sumHits := by
  have hs : s.sumHits ≤ MaxInt := by simpa using h.2
  unfold MemoryStore.GetTotalHits
  simp only [Except.ok.injEq]
  unfold MemoryStore.sumHits at hs ⊢
  rw [foldl_wrap_hits s.urls.entries 0 h.1 (le_refl _) (by omega)]
  omega

theorem room_mono (s : MemoryStore) (n : Nat) (h : s.room (n + 1)) : s.room n := by
  refine ⟨h.1, ?_⟩
  have := h.2
  push_cast at this
  omega

/-- With room for one call, a stored counter is a value of `int` below `MaxInt`, so that
incrementing it does not wrap around. -/
theorem room_lookup (s : MemoryStore) (n : Nat) (h : s.room (n + 1)) (id : String) (url : URL)
    (hl : s.urls.lookup id = some url) :
    0 ≤ url.Hits ∧ url.Hits < MaxInt ∧ wrapInt (url.Hits + 1) = url.Hits + 1 := by
  have hm : Sigma.mk id url ∈ s.urls.entries := AList.mem_lookup_iff.mp hl
  have h0 : 0 ≤ url.Hits := h.1 _ hm
  have h1 : url.Hits ≤ s.sumHits := hits_le_sum s.urls.entries h.1 _ hm
  have h2 := h.2
  push_cast at h2
  have h3 : url.Hits < MaxInt := by omega
  exact ⟨h0, h3, wrapInt_of_range _ (by unfold MinInt; omega) (by omega)⟩

/-! ## Lemmas on single calls -/

theorem mem_kreplace (a : String) (b : URL) :
    ∀ (l : List (Sigma (fun _ : String => URL))) (e : Sigma (fun _ : String => URL)),
      e ∈ List.kreplace a b l → e ∈ l ∨ e = ⟨a, b⟩
  | [], e, h => by simp [List.kreplace] at h
  | ⟨k, v⟩ :: l, e, h => by
    by_cases hk : a = k
    · subst hk
      have hs : List.kreplace a b (⟨a, v⟩ :: l) = ⟨a, b⟩ :: l :=
        List.lookmap_cons_some _ _ (by simp)
      rw [hs] at h
      rcases List.mem_cons.mp h with h1 | h1
      · exact Or.inr h1
      · exact Or.inl (List.mem_cons_of_mem _ h1)
    · have hs : List.kreplace a b (⟨k, v⟩ :: l) = ⟨k, v⟩ :: List.kreplace a b l :=
        List.lookmap_cons_none _ _ (by simp [hk])
      rw [hs] at h
      rcases List.mem_cons.mp h with h1 | h1
      · exact Or.inl (h1 ▸ List.mem_cons_self _ _)
      · rcases mem_kreplace a b l e h1 with h2 | h2
        · exact Or.inl (List.mem_cons_of_mem _ h2)
        · exact Or.inr h2

theorem sum_hits_kreplace (id : String) (url b : URL) :
    ∀ l : List (Sigma (fun _ : String => URL)), List.dlookup id l = some url →
      ((List.kreplace id b l).map (fun e => e.2.Hits)).sum =
        (l.map (fun e => e.2.Hits)).sum - url.Hits + b.Hits
  | [], h => by simp at h
  | ⟨k, v⟩ :: l, h => by
    by_cases e : id = k
    · subst e
      have hv : v = url := by simpa using h
      subst hv
      have hs : List.kreplace id b (⟨id, v⟩ :: l) = ⟨id, b⟩ :: l :=
        List.lookmap_cons_some _ _ (by simp)
      rw [hs]
      simp only [List.map_cons, List.sum_cons]
      omega
    · have hne : id ≠ (Sigma.mk k v : Sigma (fun _ : String => URL)).1 := e
      rw [List.dlookup_cons_ne _ _ hne] at h
      have ih := sum_hits_kreplace id url b l h
      have hs : List.kreplace id b (⟨k, v⟩ :: l) = ⟨k, v⟩ :: List.kreplace id b l :=
        List.lookmap_cons_none _ _ (by simp [e])
      rw [hs]
      simp only [List.map_cons, List.sum_cons, ih]
      omega

/-- A `Create` call either fails and leaves the store alone, or returns a record with no
hits that it has stored under its id. -/
theorem create_cases (parse : Parser) (s : MemoryStore) (rand : RandSource) (now : Nat)
    (u : String) :
    (∃ e, (s.Create parse rand now u).1 = .error e ∧ (s.Create parse rand now u).2.1 = s) ∨
    (∃ id, (s.Create parse rand now u).1 =
        .ok { ID := id, Original := u, CreatedAt := now, Hits := 0 } ∧
      (s.Create parse rand now u).2.1 =
        { urls := s.urls.insert id { ID := id, Original := u, CreatedAt := now, Hits := 0 } }) := by
  unfold MemoryStore.Create
  split
  · split
    · exact Or.inl ⟨_, rfl, rfl⟩
    · exact Or.inr ⟨_, rfl, rfl⟩
  · exact Or.inl ⟨_, rfl, rfl⟩

/-- A `Get` call either fails and leaves the store alone, or finds a record and puts the
record with the incremented counter in its place. -/
theorem get_cases (s : MemoryStore) (id : String) :
    ((s.Get id).1 = .error .ErrNotFound ∧ (s.Get id).2 = s ∧ s.urls.lookup id = none) ∨
    (∃ url, s.urls.lookup id = some url ∧
      (s.Get id).1 = .ok { url with Hits := wrapInt (url.Hits + 1) } ∧
      (s.Get id).2 =
        { urls := s.urls.replace id { url with Hits := wrapInt (url.Hits + 1) } }) := by
  unfold MemoryStore.Get
  cases hl : s.urls.lookup id with
  | none => exact Or.inl ⟨rfl, rfl, rfl⟩
  | some url => exact Or.inr ⟨url, rfl, rfl, rfl⟩

theorem fresh_of_not_collides (parse : Parser) (s : MemoryStore) (rand : RandSource)
    (now : Nat) (u : String) (r : URL)
    (hc : s.collides parse rand (.Create u now) = false)
    (h1 : (s.Create parse rand now u).1 = .ok r) : r.ID ∉ s.urls.keys := by
  simp only [MemoryStore.collides, h1] at hc
  simpa using hc

/-- A call that is not a colliding `Create`, made with room for one call, leaves room for
one call less, and raises the sum of all hit counters by one if it is a `Get` that succeeds
and leaves it alone otherwise. -/
theorem step_room (parse : Parser) (s : MemoryStore) (rand : RandSource) (op : Op) (n : Nat)
    (hr : s.room (n + 1)) (hc : s.collides parse rand op = false) :
    (s.step parse rand op).2.1.room n ∧
    (s.step parse rand op).2.1.sumHits = s.sumHits + (if s.getOk op then 1 else 0) := by
  have hr0 := room_mono s n hr
  cases op with
  | Create u now =>
    simp only [MemoryStore.step, MemoryStore.getOk]
    rcases create_cases parse s rand now u with ⟨e, -, h2⟩ | ⟨id0, h1, h2⟩
    · rw [h2]
      exact ⟨hr0, by simp⟩
    · have hf : id0 ∉ s.urls.keys := fresh_of_not_collides parse s rand now u _ hc h1
      have hk : List.kerase id0 s.urls.entries = s.urls.entries :=
        List.kerase_of_not_mem_keys hf
      have he : (s.urls.insert id0
          { ID := id0, Original := u, CreatedAt := now, Hits := 0 }).entries =
          ⟨id0, { ID := id0, Original := u, CreatedAt := now, Hits := 0 }⟩ :: s.urls.entries := by
        rw [AList.insert_entries, hk]
      have hsum : (MemoryStore.mk (s.urls.insert id0
          { ID := id0, Original := u, CreatedAt := now, Hits := 0 })).sumHits = s.sumHits := by
        show ((s.urls.insert id0 _).entries.map (fun e => e.2.Hits)).sum = _
        rw [he]
        simp [MemoryStore.sumHits]
      rw [h2]
      refine ⟨⟨?_, ?_⟩, by simp [hsum]⟩
      · intro e hm
        have hm' : e ∈ (Sigma.mk id0
            ({ ID := id0, Original := u, CreatedAt := now, Hits := 0 } : URL)) ::
            s.urls.entries := by
          rw [← he]
          exact hm
        rcases List.mem_cons.mp hm' with h3 | h3
        · rw [h3]
        · exact hr.1 e h3
      · rw [hsum]
        exact hr0.2
  | Get id0 =>
    simp only [MemoryStore.step, MemoryStore.getOk]
    rcases get_cases s id0 with ⟨h1, h2, -⟩ | ⟨url0, hl, h1, h2⟩
    · simp only [h2, h1]
      exact ⟨hr0, by simp⟩
    · obtain ⟨hn0, hn1, hw⟩ := room_lookup s n hr id0 url0 hl
      have hs := sum_hits_kreplace id0 url0 { url0 with Hits := wrapInt (url0.Hits + 1) }
        s.urls.entries hl
      have hsum : (MemoryStore.mk (s.urls.replace id0
          { url0 with Hits := wrapInt (url0.Hits + 1) })).sumHits = s.sumHits + 1 := by
        unfold MemoryStore.sumHits
        have hs' : ((s.urls.replace id0
            { url0 with Hits := wrapInt (url0.Hits + 1) }).entries.map
            (fun e => e.2.Hits)).sum =
            (s.urls.entries.map (fun e => e.2.Hits)).sum - url0.Hits +
              wrapInt (url0.Hits + 1) := hs
        rw [hs', hw]
        omega
      simp only [h2, h1]
      refine ⟨⟨?_, ?_⟩, by simp [hsum]⟩
      · intro e hm
        rcases mem_kreplace id0 _ s.urls.entries e hm with h3 | h3
        · exact hr.1 e h3
        · rw [h3]
          show 0 ≤ wrapInt (url0.Hits + 1)
          rw [hw]
          omega
      · rw [hsum]
        have := hr.2
        push_cast at this ⊢
        omega
  | GetStats => exact ⟨hr0, by simp [MemoryStore.step, MemoryStore.getOk, MemoryStore.GetStats]⟩
  | GetTotalCount =>
    exact ⟨hr0, by simp [MemoryStore.step, MemoryStore.getOk, MemoryStore.GetTotalCount]⟩
  | GetTotalHits =>
    exact ⟨hr0, by simp [MemoryStore.step, MemoryStore.getOk, MemoryStore.GetTotalHits]⟩
  | Close => exact ⟨hr0, by simp [MemoryStore.step, MemoryStore.getOk, MemoryStore.Close]⟩

/-- A call that is not a colliding `Create`, made with room for one call, keeps every stored
record, apart from raising its `Hits`. -/
theorem step_keeps_records (parse : Parser) (s : MemoryStore) (rand : RandSource) (op : Op)
    (hr : s.room 1) (hc : s.collides parse rand op = false) (id : String) (url : URL)
    (h : s.urls.lookup id = some url) :
    ∃ url', (s.step parse rand op).2.1.urls.lookup id = some url' ∧ url'.ID = url.ID ∧
      url'.Original = url.Original ∧ url'.CreatedAt = url.CreatedAt ∧
      url.Hits ≤ url'.Hits := by
  cases op with
  | Create u now =>
    simp only [MemoryStore.step]
    rcases create_cases parse s rand now u with ⟨e, -, h2⟩ | ⟨id0, h1, h2⟩
    · rw [h2]
      exact ⟨url, h, rfl, rfl, rfl, le_refl _⟩
    · have hf := fresh_of_not_collides parse s rand now u _ hc h1
      have hne : id ≠ id0 := by
        intro e
        subst e
        exact hf (AList.mem_keys.mp (mem_of_lookup_eq_some h))
      rw [h2]
      refine ⟨url, ?_, rfl, rfl, rfl, le_refl _⟩
      show (s.urls.insert id0 _).lookup id = some url
      rw [AList.lookup_insert_ne hne]
      exact h
  | Get id0 =>
    simp only [MemoryStore.step]
    rcases get_cases s id0 with ⟨-, h2, -⟩ | ⟨url0, hl, -, h2⟩
    · rw [h2]
      exact ⟨url, h, rfl, rfl, rfl, le_refl _⟩
    · rw [h2]
      by_cases e : id = id0
      · subst e
        have hu : url0 = url := by
          rw [h] at hl
          exact (Option.some.inj hl).symm
        subst hu
        obtain ⟨-, -, hw⟩ := room_lookup s 0 hr id url0 hl
        refine ⟨{ url0 with Hits := wrapInt (url0.Hits + 1) }, ?_, rfl, rfl, rfl, ?_⟩
        · exact lookup_replace_self s.urls id _ (mem_of_lookup_eq_some h)
        · show url0.Hits ≤ wrapInt (url0.Hits + 1)
          rw [hw]
          omega
      · refine ⟨url, ?_, rfl, rfl, rfl, le_refl _⟩
        show (s.urls.replace id0 _).lookup id = some url
        rw [lookup_replace_ne s.urls id0 id _ e]
        exact h
  | GetStats => exact ⟨url, h, rfl, rfl, rfl, le_refl _⟩
  | GetTotalCount => exact ⟨url, h, rfl, rfl, rfl, le_refl _⟩
  | GetTotalHits => exact ⟨url, h, rfl, rfl, rfl, le_refl _⟩
  | Close => exact ⟨url, h, rfl, rfl, rfl, le_refl _⟩

/-- A call that is not a colliding `Create` raises the number of records by one if it is a
`Create` that succeeds, and leaves it alone otherwise. -/
theorem step_count (parse : Parser) (s : MemoryStore) (rand : RandSource) (op : Op)
    (hc : s.collides parse rand op = false) :
    (s.step parse rand op).2.1.urls.entries.length =
      s.urls.entries.length + (if s.createOk parse rand op then 1 else 0) := by
  cases op with
  | Create u now =>
    simp only [MemoryStore.step, MemoryStore.createOk]
    rcases create_cases parse s rand now u with ⟨e, h1, h2⟩ | ⟨id0, h1, h2⟩
    · simp [h2, h1]
    · have hf : id0 ∉ s.urls.keys := fresh_of_not_collides parse s rand now u _ hc h1
      have hk : List.kerase id0 s.urls.entries = s.urls.entries :=
        List.kerase_of_not_mem_keys hf
      simp [h2, h1, hk]
  | Get id0 =>
    simp only [MemoryStore.step, MemoryStore.createOk]
    rcases get_cases s id0 with ⟨-, h2, -⟩ | ⟨url0, hl, -, h2⟩
    · simp [h2]
    · have hk := AList.keys_replace id0 { url0 with Hits := wrapInt (url0.Hits + 1) } s.urls
      have hlen := congrArg List.length hk
      simp only [h2]
      simpa [AList.keys, List.keys] using hlen
  | GetStats => simp [MemoryStore.step, MemoryStore.createOk, MemoryStore.GetStats]
  | GetTotalCount => simp [MemoryStore.step, MemoryStore.createOk, MemoryStore.GetTotalCount]
  | GetTotalHits => simp [MemoryStore.step, MemoryStore.createOk, MemoryStore.GetTotalHits]
  | Close => simp [MemoryStore.step, MemoryStore.createOk, MemoryStore.Close]

/-- A call that is not a colliding `Create`, made with room for one call, leaves the record
under `id` as it is, except that a `Get` of `id` raises its `Hits` by one. -/
theorem step_hits_of_id (parse : Parser) (s : MemoryStore) (rand : RandSource) (op : Op)
    (hr : s.room 1) (hc : s.collides parse rand op = false) (id : String) (url : URL)
    (h : s.urls.lookup id = some url) :
    (s.step parse rand op).2.1.urls.lookup id =
      some { url with Hits := url.Hits + (if op = .Get id then 1 else 0) } := by
  cases op with
  | Create u now =>
    simp only [MemoryStore.step]
    rcases create_cases parse s rand now u with ⟨e, -, h2⟩ | ⟨id0, h1, h2⟩
    · rw [h2]
      simpa using h
    · have hf : id0 ∉ s.urls.keys := fresh_of_not_collides parse s rand now u _ hc h1
      have hne : id ≠ id0 := by
        intro e
        subst e
        exact hf (AList.mem_keys.mp (mem_of_lookup_eq_some h))
      rw [h2]
      show (s.urls.insert id0 _).lookup id = _
      rw [AList.lookup_insert_ne hne]
      simpa using h
  | Get id0 =>
    simp only [MemoryStore.step]
    rcases get_cases s id0 with ⟨-, h2, hn⟩ | ⟨url0, hl, -, h2⟩
    · have hne : id0 ≠ id := by
        intro e
        subst e
        rw [h] at hn
        cases hn
      rw [h2]
      simpa [hne] using h
    · rw [h2]
      by_cases e : id0 = id
      · subst e
        have hu : url0 = url := by
          rw [h] at hl
          exact (Option.some.inj hl).symm
        subst hu
        obtain ⟨-, -, hw⟩ := room_lookup s 0 hr id0 url0 hl
        show (s.urls.replace id0 _).lookup id0 = _
        rw [lookup_replace_self s.urls id0 _ (mem_of_lookup_eq_some h), hw]
        simp
      · show (s.urls.replace id0 _).lookup id = _
        rw [lookup_replace_ne s.urls id0 id _ (fun e' => e e'.symm)]
        simpa [e] using h
  | GetStats => simpa [MemoryStore.step, MemoryStore.GetStats] using h
  | GetTotalCount => simpa [MemoryStore.step, MemoryStore.GetTotalCount] using h
  | GetTotalHits => simpa [MemoryStore.step, MemoryStore.GetTotalHits] using h
  | Close => simpa [MemoryStore.step, MemoryStore.Close] using h

/-! ## Sequences of calls without a colliding `Create` -/

/-- After a sequence of calls without a colliding `Create`, `GetTotalCount` returns its
previous value plus the number of `Create` calls that succeeded. -/
theorem count_after_run (parse : Parser) (ops : List Op) :
    ∀ (s : MemoryStore) (rand : RandSource), s.collisionFree parse rand ops = true →
      ∀ n : Int, s.GetTotalCount.1 = .ok n →
        (s.run parse rand ops).1.GetTotalCount.1 = .ok (n + s.createsOk parse rand ops) := by
  induction ops with
  | nil =>
    intro s rand _ n hn
    simpa [MemoryStore.run, MemoryStore.createsOk] using hn
  | cons op ops ih =>
    intro s rand hf n hn
    simp only [MemoryStore.collisionFree, Bool.and_eq_true, Bool.not_eq_true'] at hf
    have h1 := step_count parse s rand op hf.1
    have hn' : (s.urls.entries.length : Int) = n := by
      simpa [MemoryStore.GetTotalCount] using hn
    have h2 := ih (s.step parse rand op).2.1 (s.step parse rand op).2.2 hf.2
      (n + (if s.createOk parse rand op then 1 else 0))
      (by simp only [MemoryStore.GetTotalCount, h1]; rw [← hn']; push_cast; rfl)
    simp only [MemoryStore.run, MemoryStore.createsOk]
    rw [h2]
    push_cast
    rw [add_assoc]

/-- A sequence of calls without a colliding `Create`, made with room for as many calls,
raises the sum of all hit counters by the number of `Get` calls that succeed, and wraps no
counter around. -/
theorem room_after_run (parse : Parser) (ops : List Op) :
    ∀ (s : MemoryStore) (rand : RandSource), s.room ops.length →
      s.collisionFree parse rand ops = true →
      (s.run parse rand ops).1.room 0 ∧
      (s.run parse rand ops).1.sumHits = s.sumHits + s.getsOk parse rand ops := by
  induction ops with
  | nil =>
    intro s rand hr _
    exact ⟨hr, by simp [MemoryStore.run, MemoryStore.getsOk]⟩
  | cons op ops ih =>
    intro s rand hr hf
    simp only [MemoryStore.collisionFree, Bool.and_eq_true, Bool.not_eq_true'] at hf
    obtain ⟨h1, h2⟩ := step_room parse s rand op ops.length hr hf.1
    obtain ⟨h3, h4⟩ := ih (s.step parse rand op).2.1 (s.step parse rand op).2.2 h1 hf.2
    simp only [MemoryStore.run, MemoryStore.getsOk]
    refine ⟨h3, ?_⟩
    rw [h4, h2]
    push_cast
    rw [add_assoc]

/-- After a sequence of calls without a colliding `Create`, made with room for as many
calls, `GetTotalHits` returns its previous value plus the number of `Get` calls that
succeeded. -/
theorem totalHits_after_run (parse : Parser) (ops : List Op) (s : MemoryStore)
    (rand : RandSource) (hr : s.room ops.length)
    (hf : s.collisionFree parse rand ops = true) (n : Int) (hn : s.GetTotalHits.1 = .ok n) :
    (s.run parse rand ops).1.GetTotalHits.1 = .ok (n + s.getsOk parse rand ops) := by
  obtain ⟨h1, h2⟩ := room_after_run parse ops s rand hr hf
  have h0 : s.room 0 := by
    refine ⟨hr.1, ?_⟩
    have := hr.2
    simp only [Nat.cast_zero, add_zero]
    have hlen : (0 : Int) ≤ (ops.length : Int) := Int.ofNat_nonneg _
    omega
  rw [room_getTotalHits s h0] at hn
  rw [room_getTotalHits _ h1, h2, Except.ok.inj hn]

/-- After a sequence of calls without a colliding `Create`, made with room for as many
calls, a record that was stored before is stored with the same fields, its `Hits` raised by
the number of `Get` calls of its id. -/
theorem hits_after_run (parse : Parser) (id : String) (ops : List Op) :
    ∀ (s : MemoryStore) (rand : RandSource) (url : URL), s.room ops.length →
      s.collisionFree parse rand ops = true → s.urls.lookup id = some url →
        (s.run parse rand ops).1.urls.lookup id =
          some { url with Hits := url.Hits + ops.count (.Get id) } := by
  induction ops with
  | nil =>
    intro s rand url _ _ h
    simpa [MemoryStore.run] using h
  | cons op ops ih =>
    intro s rand url hr hf h
    simp only [MemoryStore.collisionFree, Bool.and_eq_true, Bool.not_eq_true'] at hf
    have hr1 : s.room 1 := by
      refine ⟨hr.1, ?_⟩
      have := hr.2
      simp only [List.length_cons] at this
      push_cast at this ⊢
      have hlen : (0 : Int) ≤ (ops.length : Int) := Int.ofNat_nonneg _
      omega
    have h1 := step_hits_of_id parse s rand op hr1 hf.1 id url h
    have hr' := (step_room parse s rand op ops.length hr hf.1).1
    have h2 := ih (s.step parse rand op).2.1 (s.step parse rand op).2.2 _ hr' hf.2 h1
    simp only [MemoryStore.run]
    rw [h2]
    by_cases e : op = .Get id
    · subst e
      simp [add_assoc, add_comm]
    · have e' : ¬ (Op.Get id = op) := fun x => e x.symm
      simp [e, List.count_cons, e']

/-! ## Theorems -/

/-- C1: round trip on the in-memory store.  Whenever `Create` of `u` returns a record `r`
(which it does only for a `u` that passes validation), the `Get` of `r.ID` on the resulting
store succeeds and returns a record with the same `ID`, with `Original = u` and `Hits = 1`. -/
theorem create_then_get (parse : Parser) (s s' : MemoryStore) (rand rand' : RandSource)
    (now : Nat) (u : String) (r : URL)
    (h : s.Create parse rand now u = (.ok r, s', rand')) :
    validURL parse u = true ∧
    ∃ got s'', s'.Get r.ID = (.ok got, s'') ∧
      got.ID = r.ID ∧ got.Original = u ∧ got.Hits = 1 := by
  unfold MemoryStore.Create at h
  split at h
  · rename_i hv
    refine ⟨hv, ?_⟩
    split at h
    · simp at h
    · rename_i id rand1 hg
      simp only [Prod.mk.injEq, Except.ok.injEq] at h
      obtain ⟨hr, hs, -⟩ := h
      subst hr hs
      have hl : (s.urls.insert id
          { ID := id, Original := u, CreatedAt := now, Hits := 0 }).lookup id =
          some { ID := id, Original := u, CreatedAt := now, Hits := 0 } :=
        AList.lookup_insert _
      simp [MemoryStore.Get, hl, wrapInt_one]
  · simp at h

/-- Witness of C1: the URL of the test, created in a fresh store with all random bytes zero,
gets the id `AAAAAA`, and the `Get` of that id returns one hit. -/
theorem create_then_get_witness :
    NewMemoryStore.Create testParse zeroRand 7 "https://example.com/test" =
      (.ok testRecord, testStore, { zeroRand with calls := 1 }) ∧
    ∃ got s'', testStore.Get testRecord.ID = (.ok got, s'') ∧
      got.ID = testRecord.ID ∧ got.Original = "https://example.com/test" ∧ got.Hits = 1 :=
  ⟨rfl, (create_then_get testParse NewMemoryStore testStore zeroRand { zeroRand with calls := 1 }
    7 "https://example.com/test" testRecord rfl).2⟩

/-- C2: for every string `u` that parses with a non-empty scheme and a non-empty host, and
whenever the read of the random source does not fail, `MemoryStore.Create` of `u` succeeds
and returns a record with `Hits = 0`, `Original = u` and a non-empty `ID`. -/
theorem create_valid_succeeds (parse : Parser) (s : MemoryStore) (rand : RandSource)
    (now : Nat) (u : String) (p : ParsedURL) (f : Nat → Byte)
    (hp : parse u = some p) (hs : p.Scheme ≠ "") (hh : p.Host ≠ "")
    (hr : rand.draws rand.calls = .ok f) :
    ∃ r s' rand', s.Create parse rand now u = (.ok r, s', rand') ∧
      r.Hits = 0 ∧ r.Original = u ∧ r.ID ≠ "" := by
  have hv : validURL parse u = true := (validURL_eq_true_iff parse u).mpr ⟨p, hp, hs, hh⟩
  obtain ⟨id, hg, hlen⟩ := generateID_six_ok rand f hr
  refine ⟨{ ID := id, Original := u, CreatedAt := now, Hits := 0 },
    { urls := s.urls.insert id { ID := id, Original := u, CreatedAt := now, Hits := 0 } },
    { rand with calls := rand.calls + 1 }, ?_, rfl, rfl, ?_⟩
  · simp [MemoryStore.Create, hv, hg]
  · intro h0
    have h1 : id = "" := h0
    have hlen0 : id.length = 0 := by rw [h1]; rfl
    omega

/-- Witness of C2: the URL of the test `"https://example.com/test"`. -/
theorem create_valid_succeeds_witness :
    ∃ r s' rand', NewMemoryStore.Create testParse zeroRand 7 "https://example.com/test" =
        (.ok r, s', rand') ∧
      r.Hits = 0 ∧ r.Original = "https://example.com/test" ∧ r.ID ≠ "" :=
  create_valid_succeeds testParse NewMemoryStore zeroRand 7 "https://example.com/test"
    { Scheme := "https", Host := "example.com" } (fun _ => 0) rfl (by decide) (by decide) rfl

/-- C3: for every string that does not parse with a non-empty scheme and a non-empty host,
`Create` returns no record and exactly `ErrInvalid`, in `MemoryStore` and in `SQLiteStore`
alike, whatever the state of the store, of the random source and of the database driver. -/
theorem create_invalid_fails (parse : Parser) (u : String)
    (h : ¬ ∃ p, parse u = some p ∧ p.Scheme ≠ "" ∧ p.Host ≠ "") :
    (∀ (s : MemoryStore) (rand : RandSource) (now : Nat),
      (s.Create parse rand now u).1 = .error .ErrInvalid) ∧
    (∀ (s : SQLiteStore) (rand : RandSource) (now : Nat) (io : Option String),
      (s.Create parse rand now io u).1 = .error .ErrInvalid) := by
  have hv : validURL parse u = false := by
    cases hb : validURL parse u with
    | false => rfl
    | true => exact absurd ((validURL_eq_true_iff parse u).mp hb) h
  constructor
  · intro s rand now
    simp [MemoryStore.Create, hv]
  · intro s rand now io
    simp [SQLiteStore.Create, hv]

/-- Witness of C3: the string `"not-a-url"` of the test, which `url.ParseRequestURI`
rejects. -/
theorem create_invalid_fails_witness :
    (¬ ∃ p, testParse "not-a-url" = some p ∧ p.Scheme ≠ "" ∧ p.Host ≠ "") ∧
    (∀ (s : MemoryStore) (rand : RandSource) (now : Nat),
      (s.Create testParse rand now "not-a-url").1 = .error .ErrInvalid) ∧
    (∀ (s : SQLiteStore) (rand : RandSource) (now : Nat) (io : Option String),
      (s.Create testParse rand now io "not-a-url").1 = .error .ErrInvalid) :=
  ⟨by simp [testParse],
   create_invalid_fails testParse "not-a-url" (by simp [testParse])⟩

/-- C5: for every state of the in-memory store and every id, `Get` fails with `ErrNotFound`
(so that no record is returned) if and only if no record is stored under that id. -/
theorem get_notFound_iff (s : MemoryStore) (id : String) :
    (s.Get id).1 = .error .ErrNotFound ↔ id ∉ s.urls.keys := by
  rw [← AList.mem_keys, ← AList.lookup_eq_none]
  unfold MemoryStore.Get
  cases hl : s.urls.lookup id with
  | none => simp
  | some url => simp

/-- C9, as amended: frame of a successful `Get` on the in-memory store.  For an id stored
with record `url`, `Get` returns the record that it stores under the id; that record has
the `ID`, `Original` and `CreatedAt` of `url`; its `Hits` is one higher than that of `url`
when `url.Hits` is a value of `int` below `MaxInt`, and is `MinInt` when `url.Hits` is
`MaxInt`; the stored ids are the same, and the record under every other id is unchanged. -/
theorem get_frame (s : MemoryStore) (id : String) (url : URL)
    (h : s.urls.lookup id = some url) :
    (∃ got, (s.Get id).1 = .ok got ∧ (s.Get id).2.urls.lookup id = some got ∧
      got.ID = url.ID ∧ got.Original = url.Original ∧ got.CreatedAt = url.CreatedAt ∧
      (MinInt ≤ url.Hits → url.Hits < MaxInt → got.Hits = url.Hits + 1) ∧
      (url.Hits = MaxInt → got.Hits = MinInt)) ∧
    (s.Get id).2.urls.keys = s.urls.keys ∧
    (∀ id', id' ≠ id → (s.Get id).2.urls.lookup id' = s.urls.lookup id') := by
  have hm : id ∈ s.urls := mem_of_lookup_eq_some h
  have hg : s.Get id = (.ok { url with Hits := wrapInt (url.Hits + 1) },
      { urls := s.urls.replace id { url with Hits := wrapInt (url.Hits + 1) } }) := by
    simp [MemoryStore.Get, h]
  rw [hg]
  refine ⟨⟨_, rfl, ?_, rfl, rfl, rfl, ?_, ?_⟩, ?_, ?_⟩
  · exact lookup_replace_self s.urls id _ hm
  · intro hlo hhi
    exact wrapInt_of_range _ (by omega) (by omega)
  · intro hmax
    show wrapInt (url.Hits + 1) = MinInt
    rw [hmax]
    decide
  · exact AList.keys_replace id _ s.urls
  · intro id' hne
    exact lookup_replace_ne s.urls id id' _ hne

/-- Witness of C9: the store with two records; the record under `AAAAAA` has no hits, which
is a value of `int` below `MaxInt`. -/
theorem get_frame_witness :
    twoStore.urls.lookup "AAAAAA" = some testRecord ∧
    MinInt ≤ testRecord.Hits ∧ testRecord.Hits < MaxInt ∧
    (∃ got, (twoStore.Get "AAAAAA").1 = .ok got ∧
      (twoStore.Get "AAAAAA").2.urls.lookup "AAAAAA" = some got ∧
      got.ID = testRecord.ID ∧ got.Original = testRecord.Original ∧
      got.CreatedAt = testRecord.CreatedAt ∧
      (MinInt ≤ testRecord.Hits → testRecord.Hits < MaxInt → got.Hits = testRecord.Hits + 1) ∧
      (testRecord.Hits = MaxInt → got.Hits = MinInt)) ∧
    (twoStore.Get "AAAAAA").2.urls.keys = twoStore.urls.keys ∧
    (∀ id', id' ≠ "AAAAAA" →
      (twoStore.Get "AAAAAA").2.urls.lookup id' = twoStore.urls.lookup id') :=
  ⟨by decide, by decide, by decide, get_frame twoStore "AAAAAA" testRecord (by decide)⟩

/-- Counterexample to C9 as it is stated: in a store whose record under `AAAAAA` has
`Hits = 9223372036854775807`, the largest value of `int`, `Get` of `AAAAAA` succeeds and
returns and stores `Hits = -9223372036854775808`, which is not one more. -/
theorem get_frame_at_MaxInt :
    maxStore.urls.lookup "AAAAAA" =
      some { ID := "AAAAAA", Original := "https://example.com/test", CreatedAt := 7,
             Hits := 9223372036854775807 } ∧
    (maxStore.Get "AAAAAA").1 =
      .ok { ID := "AAAAAA", Original := "https://example.com/test", CreatedAt := 7,
            Hits := -9223372036854775808 } ∧
    (maxStore.Get "AAAAAA").2.urls.lookup "AAAAAA" =
      some { ID := "AAAAAA", Original := "https://example.com/test", CreatedAt := 7,
             Hits := -9223372036854775808 } ∧
    ¬ ((maxStore.Get "AAAAAA").1 =
      .ok { ID := "AAAAAA", Original := "https://example.com/test", CreatedAt := 7,
            Hits := 9223372036854775807 + 1 }) := by
  decide

/-- C10: atomicity on error for the in-memory store.  Whenever `Create` returns `ErrInvalid`,
the store and the random source are exactly what they were before the call (no read of the
random source has been made); whenever `Get` returns `ErrNotFound`, the store is exactly
what it was before the call. -/
theorem error_leaves_state (parse : Parser) (s : MemoryStore) (rand : RandSource) (now : Nat)
    (u id : String) :
    ((s.Create parse rand now u).1 = .error .ErrInvalid →
      (s.Create parse rand now u).2 = (s, rand)) ∧
    ((s.Get id).1 = .error .ErrNotFound → (s.Get id).2 = s) := by
  constructor
  · intro h
    unfold MemoryStore.Create at h ⊢
    split
    · exfalso
      simp only [*, if_true] at h
      split at h
      · rename_i err rand1 hg
        have he : (generateID 6 rand).1 = .error err := by rw [hg]
        simp only [Except.error.injEq] at h
        obtain ⟨msg, hmsg⟩ := generateID_error_other 6 rand err he
        rw [hmsg] at h
        cases h
      · simp at h
    · rfl
  · intro h
    unfold MemoryStore.Get at h ⊢
    split
    · rfl
    · simp only [*] at h
      simp at h

/-- Witness of C10: `Create` of `"not-a-url"` and `Get` of `"nonexistent"` on a fresh store. -/
theorem error_leaves_state_witness :
    ((NewMemoryStore.Create testParse zeroRand 7 "not-a-url").1 = .error .ErrInvalid ∧
      (NewMemoryStore.Create testParse zeroRand 7 "not-a-url").2 = (NewMemoryStore, zeroRand)) ∧
    ((NewMemoryStore.Get "nonexistent").1 = .error .ErrNotFound ∧
      (NewMemoryStore.Get "nonexistent").2 = NewMemoryStore) :=
  ⟨⟨by decide,
    (error_leaves_state testParse NewMemoryStore zeroRand 7 "not-a-url" "nonexistent").1
      (by decide)⟩,
   ⟨by decide,
    (error_leaves_state testParse NewMemoryStore zeroRand 7 "not-a-url" "nonexistent").2
      (by decide)⟩⟩

/-- C4, evaluated where two `Create` calls draw the same random bytes: the first `Get` of id
`AAAAAA` returns `Hits = 1`; a `Create` that generates `AAAAAA` again succeeds; the second
successful `Get` of `AAAAAA` returns `Hits = 1` once more, with the other URL. -/
theorem second_get_after_collision :
    firstCreate.1 = .ok testRecord ∧
    firstGet.1 = .ok { testRecord with Hits := 1 } ∧
    secondCreate.1 =
      .ok { ID := "AAAAAA", Original := "https://example.com/test-get", CreatedAt := 8,
            Hits := 0 } ∧
    secondGet.1 =
      .ok { ID := "AAAAAA", Original := "https://example.com/test-get", CreatedAt := 8,
            Hits := 1 } := by
  decide

/-- C6, evaluated where a `Create` generates an id that is already stored: the call
succeeds and `GetTotalCount` returns 1 before it and 1 after it. -/
theorem count_after_collision :
    firstGet.2.GetTotalCount.1 = .ok 1 ∧
    (∃ r, secondCreate.1 = .ok r) ∧
    secondCreate.2.1.GetTotalCount.1 = .ok 1 := by
  refine ⟨by decide, ⟨_, rfl⟩, by decide⟩

/-- C7, evaluated where a `Create` generates an id that is already stored: `GetTotalHits`
returns 1 before the call and 0 after it, and no `Get` was made in between. -/
theorem totalHits_after_collision :
    firstGet.2.GetTotalHits.1 = .ok 1 ∧
    (∃ r, secondCreate.1 = .ok r) ∧
    secondCreate.2.1 = (firstGet.2.run testParse firstCreate.2.2
      [.Create "https://example.com/test-get" 8]).1 ∧
    firstGet.2.getsOk testParse firstCreate.2.2 [.Create "https://example.com/test-get" 8] = 0 ∧
    secondCreate.2.1.GetTotalHits.1 = .ok 0 := by
  refine ⟨by decide, ⟨_, rfl⟩, rfl, by decide, by decide⟩

/-- C8, evaluated where a `Create` generates an id that is already stored: the record under
`AAAAAA` has another `Original`, another `CreatedAt` and fewer `Hits` after the call. -/
theorem record_after_collision :
    firstGet.2.urls.lookup "AAAAAA" =
      some { ID := "AAAAAA", Original := "https://example.com/test", CreatedAt := 7,
             Hits := 1 } ∧
    (firstGet.2.step testParse firstCreate.2.2 (.Create "https://example.com/test-get" 8)).2.1.urls.lookup
        "AAAAAA" =
      some { ID := "AAAAAA", Original := "https://example.com/test-get", CreatedAt := 8,
             Hits := 0 } := by
  decide

/-! ## Identifier generation -/

theorem encodeURL_length : encodeURL.length = 64 := by decide

theorem encodeChar_mem (v : Nat) : encodeChar v ∈ encodeURL := by
  have hlt : v % 64 < encodeURL.length := by
    rw [encodeURL_length]
    exact Nat.mod_lt _ (by decide)
  unfold encodeChar
  rw [List.getD_eq_getElem _ _ hlt]
  exact List.getElem_mem _

theorem encode_mem : ∀ (l : List Byte) (c : Char), c ∈ encode l → c ∈ encodeURL
  | a :: b :: d :: rest, c, h => by
    simp only [encode, List.mem_cons] at h
    rcases h with h | h | h | h | h
    · exact h ▸ encodeChar_mem _
    · exact h ▸ encodeChar_mem _
    · exact h ▸ encodeChar_mem _
    · exact h ▸ encodeChar_mem _
    · exact encode_mem rest c h
  | [a, b], c, h => by
    simp only [encode, List.mem_cons, List.not_mem_nil, or_false] at h
    rcases h with h | h | h
    · exact h ▸ encodeChar_mem _
    · exact h ▸ encodeChar_mem _
    · exact h ▸ encodeChar_mem _
  | [a], c, h => by
    simp only [encode, List.mem_cons, List.not_mem_nil, or_false] at h
    rcases h with h | h
    · exact h ▸ encodeChar_mem _
    · exact h ▸ encodeChar_mem _
  | [], c, h => by simp [encode] at h

theorem length_le_encode : ∀ l : List Byte, l.length ≤ (encode l).length
  | a :: b :: c :: rest => by
    have ih := length_le_encode rest
    simp only [encode, List.length_cons]
    omega
  | [a, b] => by simp [encode]
  | [a] => by simp [encode]
  | [] => by simp [encode]

theorem encodeURL_chars :
    ∀ c ∈ encodeURL, (c.isUpper ∨ c.isLower ∨ c.isDigit ∨ c = '-' ∨ c = '_') ∧
      c ≠ '=' ∧ c ≠ '+' ∧ c ≠ '/' := by
  decide

/-- C11: for every length `n` and every `n` bytes that the random source delivers,
`generateID n` returns a string of exactly `n` characters, each of them in the URL-safe
alphabet (an upper-case letter, a lower-case letter, a digit, `-` or `_`, and none of `=`,
`+`, `/`); the slice to `n` characters is in bounds of the encoded string. -/
theorem generateID_length_alphabet (n : Nat) (rand : RandSource) (f : Nat → Byte)
    (h : rand.draws rand.calls = .ok f) :
    ∃ id, generateID n rand = (.ok id, { rand with calls := rand.calls + 1 }) ∧
      sliceTo (EncodeToString ((List.range n).map f)) n = some id ∧
      n ≤ (EncodeToString ((List.range n).map f)).length ∧
      id.length = n ∧
      ∀ c ∈ id.data, c ∈ encodeURL ∧
        (c.isUpper ∨ c.isLower ∨ c.isDigit ∨ c = '-' ∨ c = '_') ∧
        c ≠ '=' ∧ c ≠ '+' ∧ c ≠ '/' := by
  have hlen : n ≤ (encode ((List.range n).map f)).length := by
    have := length_le_encode ((List.range n).map f)
    simpa using this
  have hs : sliceTo (EncodeToString ((List.range n).map f)) n =
      some (String.mk ((encode ((List.range n).map f)).take n)) := by
    simp [sliceTo, EncodeToString, String.length, hlen]
  refine ⟨String.mk ((encode ((List.range n).map f)).take n), ?_, hs, ?_, ?_, ?_⟩
  · simp [generateID, RandSource.Read, h, hs]
  · simpa [EncodeToString, String.length] using hlen
  · simp [String.length, hlen]
  · intro c hc
    have hc' : c ∈ encode ((List.range n).map f) := List.mem_of_mem_take hc
    have hm := encode_mem _ c hc'
    exact ⟨hm, encodeURL_chars c hm⟩

/-- Witness of C11: `generateID 6` on the source that delivers zero bytes, as `Create`
calls it. -/
theorem generateID_length_alphabet_witness :
    ∃ id, generateID 6 zeroRand = (.ok id, { zeroRand with calls := zeroRand.calls + 1 }) ∧
      sliceTo (EncodeToString ((List.range 6).map (fun _ => (0 : Byte)))) 6 = some id ∧
      6 ≤ (EncodeToString ((List.range 6).map (fun _ => (0 : Byte)))).length ∧
      id.length = 6 ∧
      ∀ c ∈ id.data, c ∈ encodeURL ∧
        (c.isUpper ∨ c.isLower ∨ c.isDigit ∨ c = '-' ∨ c = '_') ∧
        c ≠ '=' ∧ c ≠ '+' ∧ c ≠ '/' :=
  generateID_length_alphabet 6 zeroRand (fun _ => 0) rfl

/-! ## The durable store -/

theorem dlookup_kreplace_self {β : Type} (a : String) (b : β) :
    ∀ l : List (Sigma (fun _ : String => β)), a ∈ l.keys →
      List.dlookup a (List.kreplace a b l) = some b
  | [], h => by simp at h
  | ⟨a', b'⟩ :: l, h => by
    by_cases e : a = a'
    · subst e
      simp [List.kreplace, List.lookmap_cons_some]
    · have hl : a ∈ l.keys := by simpa [e] using h
      have ih := dlookup_kreplace_self a b l hl
      have hne : a ≠ (Sigma.mk a' b' : Sigma (fun _ : String => β)).1 := e
      have hs : List.kreplace a b (⟨a', b'⟩ :: l) = ⟨a', b'⟩ :: List.kreplace a b l :=
        List.lookmap_cons_none _ _ (by simp [e])
      rw [hs, List.dlookup_cons_ne _ _ hne]
      exact ih

theorem dlookup_kreplace_ne {β : Type} (a a' : String) (b : β) (h : a' ≠ a) :
    ∀ l : List (Sigma (fun _ : String => β)),
      List.dlookup a' (List.kreplace a b l) = List.dlookup a' l
  | [] => by simp [List.kreplace]
  | ⟨k, v⟩ :: l => by
    by_cases e : a = k
    · subst e
      have hne : a' ≠ (Sigma.mk a v : Sigma (fun _ : String => β)).1 := h
      have hne2 : a' ≠ (Sigma.mk a b : Sigma (fun _ : String => β)).1 := h
      have hs : List.kreplace a b (⟨a, v⟩ :: l) = ⟨a, b⟩ :: l :=
        List.lookmap_cons_some _ _ (by simp)
      rw [hs, List.dlookup_cons_ne _ _ hne, List.dlookup_cons_ne _ _ hne2]
    · have ih := dlookup_kreplace_ne a a' b h l
      have hs : List.kreplace a b (⟨k, v⟩ :: l) = ⟨k, v⟩ :: List.kreplace a b l :=
        List.lookmap_cons_none _ _ (by simp [e])
      rw [hs]
      by_cases e' : a' = k
      · subst e'
        simp
      · have hne : a' ≠ (Sigma.mk k v : Sigma (fun _ : String => β)).1 := e'
        rw [List.dlookup_cons_ne _ _ hne, List.dlookup_cons_ne _ _ hne]
        exact ih

theorem rows_lookup_replace_self (m : AList (fun _ : String => Row)) (a : String) (b : Row)
    (h : m.lookup a ≠ none) : (m.replace a b).lookup a = some b :=
  dlookup_kreplace_self a b m.entries
    (AList.mem_keys.mp (by rwa [← AList.lookup_isSome, Option.isSome_iff_ne_none]))

theorem rows_lookup_replace_ne (m : AList (fun _ : String => Row)) (a a' : String) (b : Row)
    (h : a' ≠ a) : (m.replace a b).lookup a' = m.lookup a' :=
  dlookup_kreplace_ne a a' b h m.entries

/-- Every `Get` on the durable store that returns an error leaves the table as it was. -/
theorem sqlite_get_error_unchanged (s : SQLiteStore) (io : TxFaults) (id : String)
    (e : Error) (h : (s.Get io id).1 = .error e) : (s.Get io id).2 = s := by
  unfold SQLiteStore.Get at h ⊢
  cases hb : io.beginErr <;> simp only [hb] at h ⊢
  cases hq : io.queryErr <;> simp only [hq] at h ⊢
  cases hl : s.rows.lookup id <;> simp only [hl] at h ⊢
  rename_i row
  cases hsc : row.scannable
  · simp
  simp only [hsc, ↓reduceIte] at h ⊢
  cases hu : io.updateErr <;> simp only [hu] at h ⊢
  cases hc : io.commitErr <;> simp only [hc] at h ⊢
  simp at h

theorem scannable_of_range (row : Row) (h1 : MinInt ≤ row.hits) (h2 : row.hits ≤ MaxInt) :
    row.scannable = true := by
  simp [Row.scannable, h1, h2]

/-- C13, as amended: `SQLiteStore.Get` over the table.  For an id whose row has `hits = h`,
with `h` a 64-bit integer below the largest, a `Get` whose transaction commits leaves that
row with `hits = h + 1` and the same other columns, keeps the primary keys and every other
row, and returns a record with `Hits = h + 1`, the value that is stored.  For an absent id
(with the transaction begun and the query run) it returns `ErrNotFound` and the table is
unchanged.  Whenever the update or the commit fails an error is returned, and whenever an
error is returned the table is unchanged. -/
theorem sqlite_get_table (s : SQLiteStore) (io : TxFaults) (id : String) :
    (∀ row, s.rows.lookup id = some row → io = noFaults →
      MinInt ≤ row.hits → row.hits < MaxInt →
      (s.Get io id).1 =
        .ok { ID := id, Original := row.original, CreatedAt := row.created_at,
              Hits := row.hits + 1 } ∧
      (s.Get io id).2.rows.lookup id =
        some { original := row.original, created_at := row.created_at,
               hits := row.hits + 1 } ∧
      (s.Get io id).2.rows.keys = s.rows.keys ∧
      ∀ id', id' ≠ id → (s.Get io id).2.rows.lookup id' = s.rows.lookup id') ∧
    (s.rows.lookup id = none → io.beginErr = none → io.queryErr = none →
      s.Get io id = (.error .ErrNotFound, s)) ∧
    (io.updateErr ≠ none ∨ io.commitErr ≠ none → ∃ e, (s.Get io id).1 = .error e) ∧
    (∀ e, (s.Get io id).1 = .error e → (s.Get io id).2 = s) := by
  refine ⟨?_, ?_, ?_, ?_⟩
  · intro row hl hio hlo hhi
    subst hio
    have hsc : row.scannable = true := scannable_of_range row hlo (by omega)
    have hw : wrapInt (row.hits + 1) = row.hits + 1 :=
      wrapInt_of_range _ (by omega) (by omega)
    have hg : s.Get noFaults id =
        (.ok { ID := id, Original := row.original, CreatedAt := row.created_at,
               Hits := row.hits + 1 },
         { rows := s.rows.replace id { row with hits := row.hits + 1 } }) := by
      simp [SQLiteStore.Get, noFaults, hl, Row.scan, hsc, hw]
    rw [hg]
    refine ⟨rfl, ?_, ?_, ?_⟩
    · exact rows_lookup_replace_self s.rows id _ (by rw [hl]; simp)
    · exact AList.keys_replace id _ s.rows
    · intro id' hne
      exact rows_lookup_replace_ne s.rows id id' _ hne
  · intro hl hb hq
    simp [SQLiteStore.Get, hb, hq, hl]
  · intro hf
    unfold SQLiteStore.Get
    cases hb : io.beginErr <;> simp only [hb]
    swap
    · exact ⟨_, rfl⟩
    cases hq : io.queryErr <;> simp only [hq]
    swap
    · exact ⟨_, rfl⟩
    cases hl : s.rows.lookup id <;> simp only [hl]
    · exact ⟨_, rfl⟩
    rename_i row
    cases hsc : row.scannable
    · exact ⟨_, rfl⟩
    simp only [if_true]
    cases hu : io.updateErr <;> simp only [hu]
    swap
    · exact ⟨_, rfl⟩
    cases hc : io.commitErr <;> simp only [hc]
    swap
    · exact ⟨_, rfl⟩
    rw [hu, hc] at hf
    simp at hf
  · intro e h
    exact sqlite_get_error_unchanged s io id e h

/-- Witness of C13: the table with rows of three and of five hits; a `Get` that commits, a
`Get` of an absent id, and a `Get` whose commit fails. -/
theorem sqlite_get_table_witness :
    (MinInt ≤ (3 : Int) ∧ (3 : Int) < MaxInt) ∧
    ((twoTable.Get noFaults "AAAAAA").1 =
        .ok { ID := "AAAAAA", Original := "https://example.com/test", CreatedAt := 7,
              Hits := 3 + 1 } ∧
      (twoTable.Get noFaults "AAAAAA").2.rows.lookup "AAAAAA" =
        some { original := "https://example.com/test", created_at := 7, hits := 3 + 1 } ∧
      (twoTable.Get noFaults "AAAAAA").2.rows.keys = twoTable.rows.keys ∧
      ∀ id', id' ≠ "AAAAAA" →
        (twoTable.Get noFaults "AAAAAA").2.rows.lookup id' = twoTable.rows.lookup id') ∧
    twoTable.Get noFaults "nonexistent" = (.error .ErrNotFound, twoTable) ∧
    (∃ e, (twoTable.Get { noFaults with commitErr := some "disk I/O error" } "AAAAAA").1 =
      .error e) ∧
    (twoTable.Get { noFaults with commitErr := some "disk I/O error" } "AAAAAA").2 =
      twoTable :=
  ⟨⟨by decide, by decide⟩,
   (sqlite_get_table twoTable noFaults "AAAAAA").1
      { original := "https://example.com/test", created_at := 7, hits := 3 } (by decide) rfl
      (by decide) (by decide),
   (sqlite_get_table twoTable noFaults "nonexistent").2.1 (by decide) rfl rfl,
   (sqlite_get_table twoTable { noFaults with commitErr := some "disk I/O error" }
      "AAAAAA").2.2.1 (Or.inr (by decide)),
   (sqlite_get_table twoTable { noFaults with commitErr := some "disk I/O error" }
      "AAAAAA").2.2.2 (.other "disk I/O error") (by decide)⟩

/-- Counterexample to C13 as it is stated: in a table whose row under `AAAAAA` has
`hits = 9223372036854775807`, the largest 64-bit integer, a `Get` whose transaction commits
returns `Hits = -9223372036854775808`, while the row is left with the value
`9223372036854775808`, which SQLite stores as a REAL: the returned value is neither
`hits + 1` nor the stored value. -/
theorem sqlite_get_at_MaxInt :
    maxTable.rows.lookup "AAAAAA" =
      some { original := "https://example.com/test", created_at := 7,
             hits := 9223372036854775807 } ∧
    (maxTable.Get noFaults "AAAAAA").1 =
      .ok { ID := "AAAAAA", Original := "https://example.com/test", CreatedAt := 7,
            Hits := -9223372036854775808 } ∧
    (maxTable.Get noFaults "AAAAAA").2.rows.lookup "AAAAAA" =
      some { original := "https://example.com/test", created_at := 7,
             hits := 9223372036854775808 } ∧
    ¬ ((maxTable.Get noFaults "AAAAAA").1 =
      .ok { ID := "AAAAAA", Original := "https://example.com/test", CreatedAt := 7,
            Hits := 9223372036854775807 + 1 }) := by
  decide

/-- C14: `SQLiteStore.Create` over the table with `id` as primary key.  When the generated
id is already a key of the table, `Create` returns an error and no record, and the table
(hence the existing row and the number of rows) is what it was; and no `Create` whatever
changes a row that exists. -/
theorem sqlite_create_taken (parse : Parser) (s : SQLiteStore) (rand : RandSource) (now : Nat)
    (io : Option String) (u : String) :
    (∀ id rand', validURL parse u = true → generateID 6 rand = (.ok id, rand') →
      id ∈ s.rows.keys →
      ∃ e, s.Create parse rand now io u = (.error e, s, rand')) ∧
    (∀ id row, s.rows.lookup id = some row →
      (s.Create parse rand now io u).2.1.rows.lookup id = some row) := by
  constructor
  · intro id rand' hv hg hin
    cases io with
    | some e =>
      exact ⟨.other e, by simp [SQLiteStore.Create, hv, hg, SQLiteStore.execInsert]⟩
    | none =>
      exact ⟨.other "UNIQUE constraint failed: urls.id",
        by simp [SQLiteStore.Create, hv, hg, SQLiteStore.execInsert, hin]⟩
  · intro id row hl
    unfold SQLiteStore.Create
    split
    · split
      · exact hl
      · rename_i id0 rand1 hg
        unfold SQLiteStore.execInsert
        cases io with
        | some e => exact hl
        | none =>
          by_cases hin : id0 ∈ s.rows.keys
          · simp only [hin, if_true]
            exact hl
          · simp only [hin, if_false]
            have hne : id ≠ id0 := by
              intro e
              subst e
              apply hin
              apply AList.mem_keys.mp
              rw [← AList.lookup_isSome, hl]
              rfl
            show (s.rows.insert id0 _).lookup id = some row
            rw [AList.lookup_insert_ne hne]
            exact hl
    · exact hl

/-- Witness of C14: the table holds a row under `AAAAAA`, and the random source delivers the
six zero bytes that encode to `AAAAAA`. -/
theorem sqlite_create_taken_witness :
    (∃ e, testTable.Create testParse zeroRand 8 none "https://example.com/test-get" =
      (.error e, testTable, { zeroRand with calls := 1 })) ∧
    (testTable.Create testParse zeroRand 8 none "https://example.com/test-get").2.1.rows.lookup
        "AAAAAA" =
      some { original := "https://example.com/test", created_at := 7, hits := 3 } :=
  ⟨(sqlite_create_taken testParse testTable zeroRand 8 none "https://example.com/test-get").1
      "AAAAAA" { zeroRand with calls := 1 } (by decide) rfl (by decide),
   (sqlite_create_taken testParse testTable zeroRand 8 none "https://example.com/test-get").2
      "AAAAAA" { original := "https://example.com/test", created_at := 7, hits := 3 }
      (by decide)⟩

/-! ## Records and their keys in the in-memory store -/

theorem keyed_iff (s : MemoryStore) :
    s.keyed = true ↔ ∀ id url, s.urls.lookup id = some url → url.ID = id := by
  unfold MemoryStore.keyed
  rw [List.all_eq_true]
  constructor
  · intro h id url hl
    have hm : Sigma.mk id url ∈ s.urls.entries := AList.mem_lookup_iff.mp hl
    simpa using h _ hm
  · intro h e he
    have hl : s.urls.lookup e.1 = some e.2 := AList.mem_lookup_iff.mpr he
    simpa using h _ _ hl

theorem keyed_new : NewMemoryStore.keyed = true := by decide

/-- Every call keeps the records under their own ids. -/
theorem keyed_step (parse : Parser) (s : MemoryStore) (rand : RandSource) (op : Op)
    (hk : s.keyed = true) : (s.step parse rand op).2.1.keyed = true := by
  rw [keyed_iff] at hk ⊢
  cases op with
  | Create u now =>
    simp only [MemoryStore.step]
    rcases create_cases parse s rand now u with ⟨e, -, h2⟩ | ⟨id0, -, h2⟩
    · rw [h2]
      exact hk
    · rw [h2]
      intro id url hl
      by_cases e : id = id0
      · subst e
        have hl' : (s.urls.insert id _).lookup id = some url := hl
        rw [AList.lookup_insert] at hl'
        rw [← Option.some.inj hl']
      · have hl' : (s.urls.insert id0 _).lookup id = some url := hl
        rw [AList.lookup_insert_ne e] at hl'
        exact hk id url hl'
  | Get id0 =>
    simp only [MemoryStore.step]
    rcases get_cases s id0 with ⟨-, h2, -⟩ | ⟨url0, hl0, -, h2⟩
    · rw [h2]
      exact hk
    · rw [h2]
      intro id url hl
      by_cases e : id = id0
      · subst e
        have hl' : (s.urls.replace id _).lookup id = some url := hl
        rw [lookup_replace_self s.urls id _ (mem_of_lookup_eq_some hl0)] at hl'
        rw [← Option.some.inj hl']
        exact hk id url0 hl0
      · have hl' : (s.urls.replace id0 _).lookup id = some url := hl
        rw [lookup_replace_ne s.urls id0 id _ e] at hl'
        exact hk id url hl'
  | GetStats => exact hk
  | GetTotalCount => exact hk
  | GetTotalHits => exact hk
  | Close => exact hk

/-- After every sequence of calls on a fresh store the records are under their own ids. -/
theorem keyed_run (parse : Parser) (ops : List Op) :
    ∀ (s : MemoryStore) (rand : RandSource), s.keyed = true →
      (s.run parse rand ops).1.keyed = true := by
  induction ops with
  | nil => intro s rand hk; exact hk
  | cons op ops ih =>
    intro s rand hk
    exact ih _ _ (keyed_step parse s rand op hk)

/-- In every state in which the records are under their own ids (every state that calls
reach from a fresh store), `GetStats` succeeds and returns every stored record exactly once:
as many entries as `GetTotalCount` says, pairwise distinct ids, and a record is an entry if
and only if it is what the map holds under its id. -/
theorem getStats_snapshot (s : MemoryStore) (hk : s.keyed = true) :
    ∃ l, s.GetStats = (.ok l, s) ∧ s.GetTotalCount.1 = .ok (l.length : Int) ∧
      (l.map (fun u => u.ID)).Nodup ∧ ∀ u, u ∈ l ↔ s.urls.lookup u.ID = some u := by
  refine ⟨s.urls.entries.map (fun e : Sigma (fun _ : String => URL) => e.2), rfl,
    by simp [MemoryStore.GetTotalCount], ?_, ?_⟩
  · have hkeys : (s.urls.entries.map (fun e => e.2)).map (fun u => u.ID) = s.urls.keys := by
      unfold MemoryStore.keyed at hk
      rw [List.all_eq_true] at hk
      rw [List.map_map]
      apply List.map_congr_left
      intro e he
      simpa using hk e he
    rw [hkeys]
    exact s.urls.keys_nodup
  · intro u
    rw [keyed_iff] at hk
    constructor
    · intro hu
      obtain ⟨e, he, rfl⟩ := List.mem_map.mp hu
      have hl : s.urls.lookup e.1 = some e.2 := AList.mem_lookup_iff.mpr he
      rw [hk _ _ hl]
      exact hl
    · intro hl
      have hm : Sigma.mk u.ID u ∈ s.urls.entries := AList.mem_lookup_iff.mp hl
      exact List.mem_map.mpr ⟨_, hm, rfl⟩

/-- C15, evaluated where a `Create` generates an id that is already stored: after a `Create`,
a successful `Get` of its id `AAAAAA` and a second `Create` that generates `AAAAAA` again,
`GetStats` returns one entry, with the id `AAAAAA` and `Hits = 0`, although one `Get` of
`AAAAAA` has succeeded. -/
theorem stats_after_collision :
    (∃ r, firstGet.1 = .ok r) ∧
    NewMemoryStore.getsOk testParse zeroRand
      [.Create "https://example.com/test" 7, .Get "AAAAAA",
       .Create "https://example.com/test-get" 8] = 1 ∧
    secondCreate.2.1.GetStats.1 =
      .ok [{ ID := "AAAAAA", Original := "https://example.com/test-get", CreatedAt := 8,
             Hits := 0 }] := by
  refine ⟨⟨_, rfl⟩, by decide, by decide⟩

/-! ## A `Create` whose id is taken -/

theorem length_insert_of_mem (m : AList (fun _ : String => URL)) (a : String) (b : URL)
    (h : a ∈ m.keys) : (m.insert a b).entries.length = m.entries.length := by
  have h1 : (List.kerase a m.entries).keys = m.entries.keys.erase a := List.keys_kerase
  have h2 := congrArg List.length h1
  have h3 : (m.entries.keys.erase a).length = m.entries.keys.length - 1 :=
    List.length_erase_of_mem h
  have h4 : 0 < m.entries.keys.length := List.length_pos_of_mem h
  simp only [List.keys, List.length_map] at h2 h3 h4
  rw [AList.insert_entries, List.length_cons, h2, h3]
  omega

/-- C18: `MemoryStore.Create` does no collision check.  When the generated id is the id of
a record `old` in the store, `Create` still succeeds; the map holds the new record
(`Original` the new URL, `Hits = 0`) under the id; `GetTotalCount` is unchanged; `Get` of
the id returns the new record; and every entry of `GetStats` is the new record or a record
that was stored under another id, so that `old` is no longer reached through its id. -/
theorem create_overwrites (parse : Parser) (s : MemoryStore) (rand rand' : RandSource)
    (now : Nat) (u id : String) (old : URL)
    (hv : validURL parse u = true) (hg : generateID 6 rand = (.ok id, rand'))
    (hold : s.urls.lookup id = some old) :
    (s.Create parse rand now u).1 =
      .ok { ID := id, Original := u, CreatedAt := now, Hits := 0 } ∧
    (s.Create parse rand now u).2.1.urls.lookup id =
      some { ID := id, Original := u, CreatedAt := now, Hits := 0 } ∧
    (s.Create parse rand now u).2.1.GetTotalCount.1 = s.GetTotalCount.1 ∧
    ((s.Create parse rand now u).2.1.Get id).1 =
      .ok { ID := id, Original := u, CreatedAt := now, Hits := 1 } ∧
    ∃ l, (s.Create parse rand now u).2.1.GetStats.1 = .ok l ∧
      ∀ r ∈ l, r = { ID := id, Original := u, CreatedAt := now, Hits := 0 } ∨
        ∃ id', id' ≠ id ∧ s.urls.lookup id' = some r := by
  have hc : s.Create parse rand now u =
      (.ok { ID := id, Original := u, CreatedAt := now, Hits := 0 },
       { urls := s.urls.insert id { ID := id, Original := u, CreatedAt := now, Hits := 0 } },
       rand') := by
    simp [MemoryStore.Create, hv, hg]
  have hin : id ∈ s.urls.keys := AList.mem_keys.mp (mem_of_lookup_eq_some hold)
  have hl : (s.urls.insert id { ID := id, Original := u, CreatedAt := now, Hits := 0 }).lookup id =
      some { ID := id, Original := u, CreatedAt := now, Hits := 0 } :=
    AList.lookup_insert _
  rw [hc]
  refine ⟨rfl, hl, ?_, ?_, ?_⟩
  · simp only [MemoryStore.GetTotalCount]
    rw [length_insert_of_mem s.urls id _ hin]
  · simp [MemoryStore.Get, hl, wrapInt_one]
  · refine ⟨_, rfl, ?_⟩
    intro r hr
    obtain ⟨e, he, rfl⟩ := List.mem_map.mp hr
    have he' : e ∈ (Sigma.mk id ({ ID := id, Original := u, CreatedAt := now, Hits := 0 } : URL))
        :: List.kerase id s.urls.entries := by
      simpa [AList.insert_entries] using he
    rcases List.mem_cons.mp he' with h1 | h1
    · left
      rw [h1]
    · right
      have hmem : e ∈ s.urls.entries := (List.kerase_sublist id s.urls.entries).subset h1
      have hne : e.1 ≠ id := by
        intro heq
        have hk : e.1 ∈ (List.kerase id s.urls.entries).keys := List.mem_keys_of_mem h1
        rw [heq] at hk
        exact List.not_mem_keys_kerase id s.urls.nodupKeys hk
      exact ⟨e.1, hne, AList.mem_lookup_iff.mpr hmem⟩

/-- Witness of C18: the store that holds the record of the test under `AAAAAA`, and a
`Create` for which the random source delivers the six zero bytes again. -/
theorem create_overwrites_witness :
    (testStore.Create testParse zeroRand 8 "https://example.com/test-get").1 =
      .ok { ID := "AAAAAA", Original := "https://example.com/test-get", CreatedAt := 8,
            Hits := 0 } ∧
    (testStore.Create testParse zeroRand 8 "https://example.com/test-get").2.1.urls.lookup
        "AAAAAA" =
      some { ID := "AAAAAA", Original := "https://example.com/test-get", CreatedAt := 8,
             Hits := 0 } ∧
    (testStore.Create testParse zeroRand 8 "https://example.com/test-get").2.1.GetTotalCount.1 =
      testStore.GetTotalCount.1 ∧
    ((testStore.Create testParse zeroRand 8 "https://example.com/test-get").2.1.Get
        "AAAAAA").1 =
      .ok { ID := "AAAAAA", Original := "https://example.com/test-get", CreatedAt := 8,
            Hits := 1 } ∧
    ∃ l, (testStore.Create testParse zeroRand 8 "https://example.com/test-get").2.1.GetStats.1 =
        .ok l ∧
      ∀ r ∈ l, r = { ID := "AAAAAA", Original := "https://example.com/test-get",
                     CreatedAt := 8, Hits := 0 } ∨
        ∃ id', id' ≠ "AAAAAA" ∧ testStore.urls.lookup id' = some r :=
  create_overwrites testParse testStore zeroRand { zeroRand with calls := 1 } 8
    "https://example.com/test-get" "AAAAAA" testRecord (by decide) rfl (by decide)

/-! ## The handlers -/

theorem flatMap_hexEscapeChar :
    ∀ l : List Char, (∀ c ∈ l, c.val < 128) → l.flatMap hexEscapeChar = l
  | [], _ => rfl
  | x :: l, hl => by
    have hx := hl x (List.mem_cons_self _ _)
    rw [List.flatMap_cons,
      flatMap_hexEscapeChar l (fun c hc => hl c (List.mem_cons_of_mem _ hc))]
    simp [hexEscapeChar, hx]

/-- A string of ASCII characters is left as it is by `hexEscapeNonASCII`. -/
theorem hexEscapeNonASCII_ascii (s : String) (h : ∀ c ∈ s.data, c.val < 128) :
    hexEscapeNonASCII s = s := by
  unfold hexEscapeNonASCII
  rw [flatMap_hexEscapeChar s.data h]

/-- A url that does not parse, or that parses with a scheme or a host, is the target of the
redirect as it is. -/
theorem redirectTarget_absolute (lib : URLLib) (c : Context) (url : String)
    (h : ∀ p, lib.Parse url = some p → p.Scheme ≠ "" ∨ p.Host ≠ "") :
    redirectTarget lib c url = url := by
  unfold redirectTarget
  cases hp : lib.Parse url with
  | none => rfl
  | some p =>
    have h1 := h p hp
    have h2 : ¬ (p.Scheme = "" ∧ p.Host = "") := by
      intro ⟨a, b⟩
      rcases h1 with h1 | h1
      · exact h1 a
      · exact h1 b
    simp [h2]

/-- C16, as amended: the status codes of the handlers as a function of what the store
returns.  `Shorten` answers 400 when the request does not bind or `Create` returns
`ErrInvalid`, 500 for any other error of `Create`, and 200 with the record on success.
`Redirect` answers 400 for an empty id, 404 when `Get` returns `ErrNotFound`, 500 for any
other error of `Get`, and on success 302 with the header `Location` holding the target of
the redirect with its non-ASCII bytes escaped; the header is the `Original` of the record
itself when `Original` has a scheme or a host and consists of ASCII characters.  `GetStats`
and `GetMetrics` answer 500 whenever the store returns an error. -/
theorem handler_status {σ : Type} (lib : URLLib) (c : Context) (store : Store σ)
    (m : Metrics) (s : σ) :
    (URLHandler.Shorten store m s none).1.status = 400 ∧
    (∀ u, (store.Create s u).1 = .error .ErrInvalid →
      (URLHandler.Shorten store m s (some u)).1.status = 400) ∧
    (∀ u e, (store.Create s u).1 = .error e → e ≠ .ErrInvalid →
      (URLHandler.Shorten store m s (some u)).1.status = 500) ∧
    (∀ u r, (store.Create s u).1 = .ok r →
      (URLHandler.Shorten store m s (some u)).1.status = 200 ∧
      (URLHandler.Shorten store m s (some u)).1.body = .url r) ∧
    (URLHandler.Redirect lib c store m s "").1.status = 400 ∧
    (∀ id, id ≠ "" → (store.Get s id).1 = .error .ErrNotFound →
      (URLHandler.Redirect lib c store m s id).1.status = 404) ∧
    (∀ id e, id ≠ "" → (store.Get s id).1 = .error e → e ≠ .ErrNotFound →
      (URLHandler.Redirect lib c store m s id).1.status = 500) ∧
    (∀ id r, id ≠ "" → (store.Get s id).1 = .ok r →
      (URLHandler.Redirect lib c store m s id).1.status = 302 ∧
      (URLHandler.Redirect lib c store m s id).1.location =
        some (hexEscapeNonASCII (redirectTarget lib c r.Original))) ∧
    (∀ id r, id ≠ "" → (store.Get s id).1 = .ok r →
      (∀ p, lib.Parse r.Original = some p → p.Scheme ≠ "" ∨ p.Host ≠ "") →
      (∀ ch ∈ r.Original.data, ch.val < 128) →
      (URLHandler.Redirect lib c store m s id).1.location = some r.Original) ∧
    (∀ e, (store.GetStats s).1 = .error e →
      (URLHandler.GetStats store m s).1.status = 500) ∧
    (∀ e, (store.GetTotalCount s).1 = .error e →
      (URLHandler.GetMetrics store m s).1.status = 500) ∧
    (∀ e, (store.GetTotalHits (store.GetTotalCount s).2).1 = .error e →
      (URLHandler.GetMetrics store m s).1.status = 500) := by
  have hsucc : ∀ id r, id ≠ "" → (store.Get s id).1 = .ok r →
      (URLHandler.Redirect lib c store m s id).1 = httpRedirect lib c r.Original StatusFound := by
    intro id r hid h
    simp only [URLHandler.Redirect, hid, if_false]
    revert h
    rcases store.Get s id with ⟨r', s'⟩
    intro h
    simp only at h
    subst h
    rfl
  refine ⟨rfl, ?_, ?_, ?_, ?_, ?_, ?_, ?_, ?_, ?_, ?_, ?_⟩
  · intro u h
    simp only [URLHandler.Shorten]
    revert h
    rcases store.Create s u with ⟨r, s'⟩
    intro h
    simp only at h
    subst h
    simp [JSON, StatusBadRequest]
  · intro u e h hne
    simp only [URLHandler.Shorten]
    revert h
    rcases store.Create s u with ⟨r, s'⟩
    intro h
    simp only at h
    subst h
    simp [hne, JSON, StatusInternalServerError]
  · intro u r h
    simp only [URLHandler.Shorten]
    revert h
    rcases store.Create s u with ⟨r', s'⟩
    intro h
    simp only at h
    subst h
    simp [JSON, StatusOK]
  · simp [URLHandler.Redirect, JSON, StatusBadRequest]
  · intro id hid h
    simp only [URLHandler.Redirect, hid, if_false]
    revert h
    rcases store.Get s id with ⟨r, s'⟩
    intro h
    simp only at h
    subst h
    simp [JSON, StatusNotFound]
  · intro id e hid h hne
    simp only [URLHandler.Redirect, hid, if_false]
    revert h
    rcases store.Get s id with ⟨r, s'⟩
    intro h
    simp only at h
    subst h
    simp [hne, JSON, StatusInternalServerError]
  · intro id r hid h
    rw [hsucc id r hid h]
    exact ⟨rfl, rfl⟩
  · intro id r hid h habs hascii
    rw [hsucc id r hid h]
    show some (hexEscapeNonASCII (redirectTarget lib c r.Original)) = some r.Original
    rw [redirectTarget_absolute lib c r.Original habs, hexEscapeNonASCII_ascii r.Original hascii]
  · intro e h
    simp only [URLHandler.GetStats]
    revert h
    rcases store.GetStats s with ⟨r, s'⟩
    intro h
    simp only at h
    subst h
    simp [JSON, StatusInternalServerError]
  · intro e h
    simp only [URLHandler.GetMetrics]
    revert h
    rcases store.GetTotalCount s with ⟨r, s'⟩
    intro h
    simp only at h
    subst h
    simp [JSON, StatusInternalServerError]
  · intro e h
    simp only [URLHandler.GetMetrics]
    revert h
    rcases store.GetTotalCount s with ⟨r, s'⟩
    intro h
    simp only at h
    cases r with
    | error e0 => simp [JSON, StatusInternalServerError]
    | ok n =>
      simp only
      revert h
      rcases store.GetTotalHits s' with ⟨r2, s''⟩
      intro h
      simp only at h
      subst h
      simp [JSON, StatusInternalServerError]

/-- Witness of C16: the store of `error_test.go`, which returns `ErrInvalid`, `ErrNotFound`
and a database error, and the in-memory store, on which `Create` and `Get` succeed and the
`Original` is an absolute URL of ASCII characters. -/
theorem handler_status_witness :
    (URLHandler.Shorten mockErrorStore zeroMetrics () (some "https://example.com/test")).1.status
      = 400 ∧
    (URLHandler.Redirect testLib getContext mockErrorStore zeroMetrics () "abc123").1.status =
      404 ∧
    (URLHandler.GetStats mockErrorStore zeroMetrics ()).1.status = 500 ∧
    (URLHandler.GetMetrics mockErrorStore zeroMetrics ()).1.status = 500 ∧
    (URLHandler.Shorten (memoryBackend testParse 7) zeroMetrics (NewMemoryStore, zeroRand)
      (some "https://example.com/test")).1.status = 200 ∧
    (URLHandler.Redirect testLib getContext (memoryBackend testParse 7) zeroMetrics
      (testStore, zeroRand) "AAAAAA").1.status = 302 ∧
    (URLHandler.Redirect testLib getContext (memoryBackend testParse 7) zeroMetrics
      (testStore, zeroRand) "AAAAAA").1.location = some "https://example.com/test" :=
  ⟨(handler_status testLib getContext mockErrorStore zeroMetrics ()).2.1
      "https://example.com/test" rfl,
   (handler_status testLib getContext mockErrorStore zeroMetrics ()).2.2.2.2.2.1 "abc123"
      (by decide) rfl,
   (handler_status testLib getContext mockErrorStore zeroMetrics ()).2.2.2.2.2.2.2.2.2.1 _ rfl,
   (handler_status testLib getContext mockErrorStore zeroMetrics ()).2.2.2.2.2.2.2.2.2.2.1 _
      rfl,
   ((handler_status testLib getContext (memoryBackend testParse 7) zeroMetrics
      (NewMemoryStore, zeroRand)).2.2.2.1 "https://example.com/test" testRecord rfl).1,
   ((handler_status testLib getContext (memoryBackend testParse 7) zeroMetrics
      (testStore, zeroRand)).2.2.2.2.2.2.2.1 "AAAAAA" { testRecord with Hits := 1 }
      (by decide) rfl).1,
   (handler_status testLib getContext (memoryBackend testParse 7) zeroMetrics
      (testStore, zeroRand)).2.2.2.2.2.2.2.2.1 "AAAAAA" { testRecord with Hits := 1 }
      (by decide) rfl (by decide) (by decide)⟩

/-- Counterexample to C16 as it is stated: for a record whose `Original` is
`https://example.com/é`, `Get` succeeds and `Redirect` answers 302 with the header
`Location` equal to `https://example.com/%c3%a9`, which is not the `Original`. -/
theorem redirect_location_escaped :
    ((memoryBackend testParse 7).Get (accentStore, zeroRand) "AAAAAA").1 =
      .ok { ID := "AAAAAA", Original := "https://example.com/é", CreatedAt := 7, Hits := 1 } ∧
    (URLHandler.Redirect testLib getContext (memoryBackend testParse 7) zeroMetrics
      (accentStore, zeroRand) "AAAAAA").1.status = 302 ∧
    (URLHandler.Redirect testLib getContext (memoryBackend testParse 7) zeroMetrics
      (accentStore, zeroRand) "AAAAAA").1.location = some "https://example.com/%c3%a9" ∧
    (URLHandler.Redirect testLib getContext (memoryBackend testParse 7) zeroMetrics
      (accentStore, zeroRand) "AAAAAA").1.location ≠ some "https://example.com/é" := by
  decide

/-! ## The bits that an identifier depends on -/

theorem encodeChar_mod (v : Nat) : encodeChar v = encodeChar (v % 64) := by
  simp [encodeChar, Nat.mod_mod]

set_option maxRecDepth 100000 in
theorem indexOf_encodeChar : ∀ i : Fin 64, encodeURL.indexOf (encodeChar i.val) = i.val := by
  decide

theorem encodeChar_inj (i j : Nat) (hi : i < 64) (hj : j < 64)
    (h : encodeChar i = encodeChar j) : i = j := by
  have h1 := indexOf_encodeChar ⟨i, hi⟩
  have h2 := indexOf_encodeChar ⟨j, hj⟩
  simp only at h1 h2
  rw [← h1, ← h2, h]

theorem encodeChar_eq_iff (x y : Nat) : encodeChar x = encodeChar y ↔ x % 64 = y % 64 := by
  constructor
  · intro h
    rw [encodeChar_mod x, encodeChar_mod y] at h
    exact encodeChar_inj _ _ (Nat.mod_lt _ (by decide)) (Nat.mod_lt _ (by decide)) h
  · intro h
    rw [encodeChar_mod x, encodeChar_mod y, h]

theorem exists_encodeChar_of_mem (c : Char) (h : c ∈ encodeURL) :
    ∃ i, i < 64 ∧ encodeChar i = c := by
  obtain ⟨n, hn, hc⟩ := List.getElem_of_mem h
  have hn' : n < 64 := by rwa [encodeURL_length] at hn
  refine ⟨n, hn', ?_⟩
  unfold encodeChar
  rw [Nat.mod_eq_of_lt hn', List.getD_eq_getElem _ _ hn]
  exact hc

/-- The identifier that `generateID 6` returns, character by character. -/
theorem generateID_six_chars (rand : RandSource) (f : Nat → Byte)
    (h : rand.draws rand.calls = .ok f) :
    (generateID 6 rand).1 = .ok (String.mk
      [encodeChar (((f 0).val * 65536 + (f 1).val * 256 + (f 2).val) / 262144),
       encodeChar (((f 0).val * 65536 + (f 1).val * 256 + (f 2).val) / 4096),
       encodeChar (((f 0).val * 65536 + (f 1).val * 256 + (f 2).val) / 64),
       encodeChar ((f 0).val * 65536 + (f 1).val * 256 + (f 2).val),
       encodeChar (((f 3).val * 65536 + (f 4).val * 256 + (f 5).val) / 262144),
       encodeChar (((f 3).val * 65536 + (f 4).val * 256 + (f 5).val) / 4096)]) := by
  have hr : (List.range 6).map f = [f 0, f 1, f 2, f 3, f 4, f 5] := rfl
  simp [generateID, RandSource.Read, h, hr, sliceTo, EncodeToString, String.length, encode]

theorem sextets_first36 (a b c d e k a' b' c' d' e' k' : Nat)
    (ha : a < 256) (hb : b < 256) (hc : c < 256) (hd : d < 256) (he : e < 256) (hk : k < 256)
    (ha' : a' < 256) (hb' : b' < 256) (hc' : c' < 256) (hd' : d' < 256) (he' : e' < 256)
    (hk' : k' < 256) :
    ((a * 65536 + b * 256 + c) / 262144 % 64 = (a' * 65536 + b' * 256 + c') / 262144 % 64 ∧
     (a * 65536 + b * 256 + c) / 4096 % 64 = (a' * 65536 + b' * 256 + c') / 4096 % 64 ∧
     (a * 65536 + b * 256 + c) / 64 % 64 = (a' * 65536 + b' * 256 + c') / 64 % 64 ∧
     (a * 65536 + b * 256 + c) % 64 = (a' * 65536 + b' * 256 + c') % 64 ∧
     (d * 65536 + e * 256 + k) / 262144 % 64 = (d' * 65536 + e' * 256 + k') / 262144 % 64 ∧
     (d * 65536 + e * 256 + k) / 4096 % 64 = (d' * 65536 + e' * 256 + k') / 4096 % 64) ↔
    ((((a * 256 + b) * 256 + c) * 256 + d) * 16 + e / 16 =
      (((a' * 256 + b') * 256 + c') * 256 + d') * 16 + e' / 16) := by
  omega

/-- Two reads give the same identifier if and only if they agree in their first 36 bits. -/
theorem generateID_six_eq_iff (rand rand' : RandSource) (f g : Nat → Byte)
    (hf : rand.draws rand.calls = .ok f) (hg : rand'.draws rand'.calls = .ok g) :
    (generateID 6 rand).1 = (generateID 6 rand').1 ↔ first36 f = first36 g := by
  have hmk : ∀ l l' : List Char, String.mk l = String.mk l' ↔ l = l' :=
    fun l l' => ⟨fun h => by injection h, fun h => by rw [h]⟩
  rw [generateID_six_chars rand f hf, generateID_six_chars rand' g hg]
  simp only [Except.ok.injEq, hmk, List.cons.injEq, and_true, encodeChar_eq_iff]
  unfold first36
  exact sextets_first36 _ _ _ _ _ _ _ _ _ _ _ _ (f 0).isLt (f 1).isLt (f 2).isLt (f 3).isLt
    (f 4).isLt (f 5).isLt (g 0).isLt (g 1).isLt (g 2).isLt (g 3).isLt (g 4).isLt (g 5).isLt

theorem list_of_length_six (l : List Char) (h : l.length = 6) :
    ∃ a b c d e k, l = [a, b, c, d, e, k] := by
  match l, h with
  | [a, b, c, d, e, k], _ => exact ⟨a, b, c, d, e, k, rfl⟩

/-- Every string of six characters of the alphabet is the identifier of some read. -/
theorem generateID_six_onto (id : String) (hlen : id.length = 6)
    (hmem : ∀ c ∈ id.data, c ∈ encodeURL) :
    ∃ f : Nat → Byte, ∀ rand : RandSource, rand.draws rand.calls = .ok f →
      (generateID 6 rand).1 = .ok id := by
  obtain ⟨c0, c1, c2, c3, c4, c5, hd⟩ := list_of_length_six id.data hlen
  have hid : id = String.mk [c0, c1, c2, c3, c4, c5] := by
    rw [← hd]
  obtain ⟨i0, h0, e0⟩ := exists_encodeChar_of_mem c0 (hmem c0 (by simp [hd]))
  obtain ⟨i1, h1, e1⟩ := exists_encodeChar_of_mem c1 (hmem c1 (by simp [hd]))
  obtain ⟨i2, h2, e2⟩ := exists_encodeChar_of_mem c2 (hmem c2 (by simp [hd]))
  obtain ⟨i3, h3, e3⟩ := exists_encodeChar_of_mem c3 (hmem c3 (by simp [hd]))
  obtain ⟨i4, h4, e4⟩ := exists_encodeChar_of_mem c4 (hmem c4 (by simp [hd]))
  obtain ⟨i5, h5, e5⟩ := exists_encodeChar_of_mem c5 (hmem c5 (by simp [hd]))
  have hb0 : i0 * 4 + i1 / 16 < 256 := by omega
  have hb1 : i1 % 16 * 16 + i2 / 4 < 256 := by omega
  have hb2 : i2 % 4 * 64 + i3 < 256 := by omega
  have hb3 : i4 * 4 + i5 / 16 < 256 := by omega
  have hb4 : i5 % 16 * 16 < 256 := by omega
  refine ⟨fun k => ([⟨_, hb0⟩, ⟨_, hb1⟩, ⟨_, hb2⟩, ⟨_, hb3⟩, ⟨_, hb4⟩, 0] : List Byte).getD k 0,
    ?_⟩
  intro rand h
  rw [generateID_six_chars rand _ h, hid, ← e0, ← e1, ← e2, ← e3, ← e4, ← e5]
  simp only [List.getD_cons_zero, List.getD_cons_succ, Fin.val_zero]
  have q0 := (encodeChar_eq_iff
    (((i0 * 4 + i1 / 16) * 65536 + (i1 % 16 * 16 + i2 / 4) * 256 + (i2 % 4 * 64 + i3)) / 262144)
    i0).mpr (by omega)
  have q1 := (encodeChar_eq_iff
    (((i0 * 4 + i1 / 16) * 65536 + (i1 % 16 * 16 + i2 / 4) * 256 + (i2 % 4 * 64 + i3)) / 4096)
    i1).mpr (by omega)
  have q2 := (encodeChar_eq_iff
    (((i0 * 4 + i1 / 16) * 65536 + (i1 % 16 * 16 + i2 / 4) * 256 + (i2 % 4 * 64 + i3)) / 64)
    i2).mpr (by omega)
  have q3 := (encodeChar_eq_iff
    ((i0 * 4 + i1 / 16) * 65536 + (i1 % 16 * 16 + i2 / 4) * 256 + (i2 % 4 * 64 + i3))
    i3).mpr (by omega)
  have q4 := (encodeChar_eq_iff
    (((i4 * 4 + i5 / 16) * 65536 + i5 % 16 * 16 * 256 + 0) / 262144) i4).mpr (by omega)
  have q5 := (encodeChar_eq_iff
    (((i4 * 4 + i5 / 16) * 65536 + i5 % 16 * 16 * 256 + 0) / 4096) i5).mpr (by omega)
  rw [q0, q1, q2, q3, q4, q5]

/-- C19: `generateID 6` depends only on the first 36 bits of the six bytes that it reads.
Two reads give the same identifier if and only if their first 36 bits agree (so the low
four bits of the fifth byte and the sixth byte never matter); the first 36 bits are a number
below `64 ^ 6`; every identifier is a string of six characters of the alphabet; and every
string of six characters of the alphabet is the identifier of some read. -/
theorem generateID_six_bijection :
    (∀ (rand rand' : RandSource) (f g : Nat → Byte),
      rand.draws rand.calls = .ok f → rand'.draws rand'.calls = .ok g →
      ((generateID 6 rand).1 = (generateID 6 rand').1 ↔ first36 f = first36 g)) ∧
    (∀ (rand rand' : RandSource) (f g : Nat → Byte),
      rand.draws rand.calls = .ok f → rand'.draws rand'.calls = .ok g →
      f 0 = g 0 → f 1 = g 1 → f 2 = g 2 → f 3 = g 3 → (f 4).val / 16 = (g 4).val / 16 →
      (generateID 6 rand).1 = (generateID 6 rand').1) ∧
    (∀ f : Nat → Byte, first36 f < 64 ^ 6) ∧
    (∀ (rand : RandSource) (f : Nat → Byte), rand.draws rand.calls = .ok f →
      ∃ id, (generateID 6 rand).1 = .ok id ∧ id.length = 6 ∧ ∀ c ∈ id.data, c ∈ encodeURL) ∧
    (∀ id : String, id.length = 6 → (∀ c ∈ id.data, c ∈ encodeURL) →
      ∃ f : Nat → Byte, ∀ rand : RandSource, rand.draws rand.calls = .ok f →
        (generateID 6 rand).1 = .ok id) := by
  refine ⟨generateID_six_eq_iff, ?_, ?_, ?_, generateID_six_onto⟩
  · intro rand rand' f g hf hg h0 h1 h2 h3 h4
    rw [generateID_six_eq_iff rand rand' f g hf hg]
    unfold first36
    rw [h0, h1, h2, h3, h4]
  · intro f
    unfold first36
    have a0 := (f 0).isLt
    have a1 := (f 1).isLt
    have a2 := (f 2).isLt
    have a3 := (f 3).isLt
    have a4 := (f 4).isLt
    norm_num
    omega
  · intro rand f hf
    refine ⟨_, generateID_six_chars rand f hf, rfl, ?_⟩
    intro c hc
    simp only [List.mem_cons, List.not_mem_nil, or_false] at hc
    rcases hc with h | h | h | h | h | h <;> exact h ▸ encodeChar_mem _

/-- Witness of C19: the bytes `lowBits` differ from six zero bytes in the low four bits of
the fifth byte and in the sixth byte only, and give the same identifier; and `______` is
the identifier of some read. -/
theorem generateID_six_bijection_witness :
    (generateID 6 zeroRand).1 =
      (generateID 6 { draws := fun _ => .ok lowBits, calls := 0 }).1 ∧
    ∃ f : Nat → Byte, ∀ rand : RandSource, rand.draws rand.calls = .ok f →
      (generateID 6 rand).1 = .ok "______" :=
  ⟨(generateID_six_bijection.1 zeroRand { draws := fun _ => .ok lowBits, calls := 0 }
      (fun _ => 0) lowBits rfl rfl).mpr (by decide),
   generateID_six_bijection.2.2.2.2 "______" (by decide) (by decide)⟩

/-! ## The two backends side by side -/

/-- C12, evaluated where two `Create` calls draw the same random bytes, on a fresh in-memory
store and a fresh durable store with the same random source: the first `Create` succeeds on
both; the second succeeds on the in-memory store and fails on the durable store; after it,
`Get` of the id returns the second URL from the one and the first URL from the other. -/
theorem backends_differ_on_collision :
    NewMemoryStore.trace testParse zeroRand
      [.Create "https://example.com/test" 7, .Create "https://example.com/test-get" 8,
       .Get "AAAAAA"] =
      [.record (.ok { ID := "AAAAAA", Original := "https://example.com/test", CreatedAt := 7,
                      Hits := 0 }),
       .record (.ok { ID := "AAAAAA", Original := "https://example.com/test-get",
                      CreatedAt := 8, Hits := 0 }),
       .record (.ok { ID := "AAAAAA", Original := "https://example.com/test-get",
                      CreatedAt := 8, Hits := 1 })] ∧
    NewSQLiteStore.trace testParse zeroRand
      [.Create "https://example.com/test" 7, .Create "https://example.com/test-get" 8,
       .Get "AAAAAA"] =
      [.record (.ok { ID := "AAAAAA", Original := "https://example.com/test", CreatedAt := 7,
                      Hits := 0 }),
       .record (.error (.other "UNIQUE constraint failed: urls.id")),
       .record (.ok { ID := "AAAAAA", Original := "https://example.com/test", CreatedAt := 7,
                      Hits := 1 })] :=
  ⟨rfl, rfl⟩

theorem dlookup_map_row (a : String) :
    ∀ l : List (Sigma (fun _ : String => URL)),
      List.dlookup a (l.map (fun e => (⟨e.1, e.2.row⟩ : Sigma (fun _ : String => Row)))) =
        (List.dlookup a l).map URL.row
  | [] => rfl
  | ⟨k, v⟩ :: l => by
    by_cases e : a = k
    · subst e
      simp
    · have hne : a ≠ (Sigma.mk k v : Sigma (fun _ : String => URL)).1 := e
      have hne' : a ≠ (Sigma.mk k v.row : Sigma (fun _ : String => Row)).1 := e
      rw [List.map_cons, List.dlookup_cons_ne _ _ hne', List.dlookup_cons_ne _ _ hne]
      exact dlookup_map_row a l

theorem kreplace_map_row (a : String) (b : URL) :
    ∀ l : List (Sigma (fun _ : String => URL)),
      List.kreplace a b.row (l.map (fun e => (⟨e.1, e.2.row⟩ : Sigma (fun _ : String => Row)))) =
        (List.kreplace a b l).map (fun e => (⟨e.1, e.2.row⟩ : Sigma (fun _ : String => Row)))
  | [] => by simp [List.kreplace]
  | ⟨k, v⟩ :: l => by
    by_cases e : a = k
    · subst e
      have h1 : List.kreplace a b (⟨a, v⟩ :: l) = ⟨a, b⟩ :: l :=
        List.lookmap_cons_some _ _ (by simp)
      have h2 : List.kreplace a b.row ((⟨a, v.row⟩ : Sigma (fun _ : String => Row)) ::
          l.map (fun e => (⟨e.1, e.2.row⟩ : Sigma (fun _ : String => Row)))) =
          ⟨a, b.row⟩ :: l.map (fun e => (⟨e.1, e.2.row⟩ : Sigma (fun _ : String => Row))) :=
        List.lookmap_cons_some _ _ (by simp)
      rw [List.map_cons, h1, h2, List.map_cons]
    · have h1 : List.kreplace a b (⟨k, v⟩ :: l) = ⟨k, v⟩ :: List.kreplace a b l :=
        List.lookmap_cons_none _ _ (by simp [e])
      have h2 : List.kreplace a b.row ((⟨k, v.row⟩ : Sigma (fun _ : String => Row)) ::
          l.map (fun e => (⟨e.1, e.2.row⟩ : Sigma (fun _ : String => Row)))) =
          ⟨k, v.row⟩ :: List.kreplace a b.row
            (l.map (fun e => (⟨e.1, e.2.row⟩ : Sigma (fun _ : String => Row)))) :=
        List.lookmap_cons_none _ _ (by simp [e])
      rw [List.map_cons, h1, h2, List.map_cons, kreplace_map_row a b l]

theorem related_lookup (m : MemoryStore) (s : SQLiteStore) (hr : related m s) (id : String) :
    s.rows.lookup id = (m.urls.lookup id).map URL.row := by
  unfold AList.lookup
  rw [hr.1]
  exact dlookup_map_row id m.urls.entries

theorem related_keys (m : MemoryStore) (s : SQLiteStore) (hr : related m s) :
    s.rows.keys = m.urls.keys := by
  unfold AList.keys
  rw [hr.1]
  simp [List.keys, List.map_map, Function.comp_def]

theorem related_new : related NewMemoryStore NewSQLiteStore :=
  ⟨rfl, keyed_new⟩

theorem sqlSum_nonneg :
    ∀ (l : List Int) (acc : Int), (∀ x ∈ l, 0 ≤ x) → 0 ≤ acc → acc + l.sum ≤ MaxInt →
      sqlSum l acc = some (acc + l.sum)
  | [], acc, _, _, _ => by simp [sqlSum]
  | x :: l, acc, h, ha, hs => by
    have h1 := h x (List.mem_cons_self _ _)
    have h2 : 0 ≤ l.sum := List.sum_nonneg (fun y hy => h y (List.mem_cons_of_mem _ hy))
    simp only [List.sum_cons] at hs
    have hlo : MinInt ≤ acc + x := by unfold MinInt; omega
    have hhi : acc + x ≤ MaxInt := by omega
    simp only [sqlSum, hlo, hhi, and_self, if_true, List.sum_cons]
    rw [sqlSum_nonneg l (acc + x) (fun y hy => h y (List.mem_cons_of_mem _ hy))
      (by omega) (by omega)]
    rw [add_assoc]

/-- Under a store with room, every row of the related table is an INTEGER. -/
theorem related_scannable (m : MemoryStore) (s : SQLiteStore) (hr : related m s)
    (hroom : m.room 0) : s.rows.entries.all (fun e => e.2.scannable) = true := by
  rw [List.all_eq_true, hr.1]
  intro e he
  obtain ⟨e0, he0, rfl⟩ := List.mem_map.mp he
  have h0 : 0 ≤ e0.2.Hits := hroom.1 e0 he0
  have h1 : e0.2.Hits ≤ m.sumHits := hits_le_sum m.urls.entries hroom.1 e0 he0
  have h2 : m.sumHits ≤ MaxInt := by simpa using hroom.2
  exact scannable_of_range _ (by show MinInt ≤ e0.2.Hits; unfold MinInt; omega)
    (by show e0.2.Hits ≤ MaxInt; omega)

/-- One call that is not a colliding `Create`, made with room for one call on an in-memory
store and on a durable store that hold the same records: the replies are the same
observation, the stores hold the same records afterwards, and the random source is left in
the same state. -/
theorem step_related (parse : Parser) (m : MemoryStore) (s : SQLiteStore) (rand : RandSource)
    (op : Op) (hr : related m s) (hroom : m.room 1)
    (hc : m.collides parse rand op = false) :
    Reply.same (m.step parse rand op).1 (s.step parse rand op).1 ∧
    related (m.step parse rand op).2.1 (s.step parse rand op).2.1 ∧
    (m.step parse rand op).2.2 = (s.step parse rand op).2.2 := by
  have hk' := keyed_step parse m rand op hr.2
  have hroom0 := room_mono m 0 hroom
  have hsc := related_scannable m s hr hroom0
  cases op with
  | Create u now =>
    cases hv : validURL parse u with
    | false =>
      have h1 : m.Create parse rand now u = (.error .ErrInvalid, m, rand) := by
        simp [MemoryStore.Create, hv]
      have h2 : s.Create parse rand now none u = (.error .ErrInvalid, s, rand) := by
        simp [SQLiteStore.Create, hv]
      simp only [MemoryStore.step, SQLiteStore.step, h1, h2]
      exact ⟨rfl, hr, trivial⟩
    | true =>
      rcases hg : generateID 6 rand with ⟨r, rand'⟩
      cases r with
      | error e =>
        have h1 : m.Create parse rand now u = (.error e, m, rand') := by
          simp [MemoryStore.Create, hv, hg]
        have h2 : s.Create parse rand now none u = (.error e, s, rand') := by
          simp [SQLiteStore.Create, hv, hg]
        simp only [MemoryStore.step, SQLiteStore.step, h1, h2]
        exact ⟨rfl, hr, trivial⟩
      | ok id =>
        have h1 : m.Create parse rand now u =
            (.ok { ID := id, Original := u, CreatedAt := now, Hits := 0 },
             { urls := m.urls.insert id { ID := id, Original := u, CreatedAt := now, Hits := 0 } },
             rand') := by
          simp [MemoryStore.Create, hv, hg]
        have hf : id ∉ m.urls.keys :=
          fresh_of_not_collides parse m rand now u _ hc (by rw [h1])
        have hf' : id ∉ s.rows.keys := by
          rw [related_keys m s hr]
          exact hf
        have h2 : s.Create parse rand now none u =
            (.ok { ID := id, Original := u, CreatedAt := now, Hits := 0 },
             { rows := s.rows.insert id { original := u, created_at := now, hits := 0 } },
             rand') := by
          simp [SQLiteStore.Create, hv, hg, SQLiteStore.execInsert, hf']
        simp only [MemoryStore.step, h1] at hk'
        simp only [MemoryStore.step, SQLiteStore.step, h1, h2]
        refine ⟨rfl, ⟨?_, hk'⟩, trivial⟩
        have e1 : List.kerase id m.urls.entries = m.urls.entries :=
          List.kerase_of_not_mem_keys hf
        have e2 : List.kerase id s.rows.entries = s.rows.entries :=
          List.kerase_of_not_mem_keys hf'
        show (s.rows.insert id _).entries = List.map _ (m.urls.insert id _).entries
        rw [AList.insert_entries, AList.insert_entries, e1, e2, hr.1]
        simp [URL.row]
  | Get id =>
    have hl := related_lookup m s hr id
    cases hm : m.urls.lookup id with
    | none =>
      rw [hm] at hl
      have h1 : m.Get id = (.error .ErrNotFound, m) := by simp [MemoryStore.Get, hm]
      have h2 : s.Get noFaults id = (.error .ErrNotFound, s) := by
        simp [SQLiteStore.Get, noFaults, hl]
      simp only [MemoryStore.step, SQLiteStore.step, h1, h2]
      exact ⟨rfl, hr, trivial⟩
    | some url =>
      rw [hm] at hl
      obtain ⟨hn0, hn1, hw⟩ := room_lookup m 0 hroom id url hm
      have hrow : (URL.row url).scannable = true :=
        scannable_of_range _ (by show MinInt ≤ url.Hits; unfold MinInt; omega)
          (by show url.Hits ≤ MaxInt; omega)
      have h1 : m.Get id = (.ok { url with Hits := url.Hits + 1 },
          { urls := m.urls.replace id { url with Hits := url.Hits + 1 } }) := by
        simp [MemoryStore.Get, hm, hw]
      have h2 : s.Get noFaults id =
          (.ok { ID := id, Original := url.Original, CreatedAt := url.CreatedAt,
                 Hits := url.Hits + 1 },
           { rows := s.rows.replace id (URL.row { url with Hits := url.Hits + 1 }) }) := by
        have hl' : s.rows.lookup id = some (URL.row url) := hl
        simp only [SQLiteStore.Get, noFaults, hl', hrow, ↓reduceIte]
        simp [Row.scan, URL.row, hw]
      simp only [MemoryStore.step, h1] at hk'
      simp only [MemoryStore.step, SQLiteStore.step, h1, h2]
      refine ⟨rfl, ⟨?_, hk'⟩, trivial⟩
      show List.kreplace id _ s.rows.entries = _
      rw [hr.1]
      exact kreplace_map_row id _ m.urls.entries
  | GetStats =>
    have hst : (s.step parse rand .GetStats).2.1 = s := by
      simp [SQLiteStore.step, SQLiteStore.GetStats, hsc]
    refine ⟨?_, by rw [hst]; exact hr, rfl⟩
    simp only [MemoryStore.step, SQLiteStore.step, MemoryStore.GetStats, SQLiteStore.GetStats,
      hsc, ↓reduceIte, Reply.same]
    rw [hr.1]
    simp [List.map_map, Function.comp_def, URL.observed, Row.scan, URL.row]
  | GetTotalCount =>
    refine ⟨?_, hr, rfl⟩
    simp only [MemoryStore.step, SQLiteStore.step, MemoryStore.GetTotalCount,
      SQLiteStore.GetTotalCount, Reply.same]
    rw [hr.1]
    simp
  | GetTotalHits =>
    have hst : (s.step parse rand .GetTotalHits).2.1 = s := by
      simp only [SQLiteStore.step, SQLiteStore.GetTotalHits, hsc, ↓reduceIte]
      split <;> rfl
    refine ⟨?_, by rw [hst]; exact hr, rfl⟩
    have hm := room_getTotalHits m hroom0
    have hsum : (s.rows.entries.map (fun e => e.2.hits)).sum = m.sumHits := by
      rw [hr.1]
      simp [MemoryStore.sumHits, List.map_map, Function.comp_def, URL.row]
    have hnn : ∀ x ∈ s.rows.entries.map (fun e => e.2.hits), 0 ≤ x := by
      intro x hx
      rw [hr.1] at hx
      obtain ⟨e, he, rfl⟩ := List.mem_map.mp hx
      obtain ⟨e0, he0, rfl⟩ := List.mem_map.mp he
      exact hroom0.1 e0 he0
    have hle : m.sumHits ≤ MaxInt := by simpa using hroom0.2
    have hq := sqlSum_nonneg (s.rows.entries.map (fun e => e.2.hits)) 0 hnn (le_refl _)
      (by rw [hsum]; omega)
    rw [hsum] at hq
    simp only [MemoryStore.step, SQLiteStore.step, SQLiteStore.GetTotalHits, hsc, ↓reduceIte,
      hq, hm, Reply.same]
    simp
  | Close => exact ⟨rfl, hr, rfl⟩

/-- On a fresh in-memory store and a fresh durable store, with the same random source and a
database driver that fails nowhere, every sequence of calls without a colliding `Create`,
made with room for as many calls, gets the same observation from both backends at every
step. -/
theorem traces_related (parse : Parser) (ops : List Op) :
    ∀ (m : MemoryStore) (s : SQLiteStore) (rand : RandSource), related m s →
      m.room ops.length → m.collisionFree parse rand ops = true →
      List.Forall₂ Reply.same (m.trace parse rand ops) (s.trace parse rand ops) := by
  induction ops with
  | nil =>
    intro m s rand _ _ _
    exact List.Forall₂.nil
  | cons op ops ih =>
    intro m s rand hr hroom hf
    simp only [MemoryStore.collisionFree, Bool.and_eq_true, Bool.not_eq_true'] at hf
    have hroom1 : m.room 1 := by
      refine ⟨hroom.1, ?_⟩
      have := hroom.2
      simp only [List.length_cons] at this
      push_cast at this ⊢
      have hlen : (0 : Int) ≤ (ops.length : Int) := Int.ofNat_nonneg _
      omega
    obtain ⟨h1, h2, h3⟩ := step_related parse m s rand op hr hroom1 hf.1
    have hroom' := (step_room parse m rand op ops.length hroom hf.1).1
    simp only [MemoryStore.trace, SQLiteStore.trace]
    refine List.Forall₂.cons h1 ?_
    rw [← h3]
    exact ih _ _ _ h2 hroom' hf.2

end Storage
